import Mathlib

/-!
Verification development for the github-username-validator repository.

The definitions below are a shallow embedding of the TypeScript source:
  * `src/app/api/validate-github-batch/route.ts` — rate limiter, result cache,
    REST and GraphQL validators, and the `POST` orchestrator (`POSTbatch` here);
  * `src/unnamed/part_000` (the plain `/api/validate-github` route) — the
    sequential single-resource validator `validateGitHubUsername` and its
    `POST` handler (`POSTplain` here);
  * `src/app/api/check-repository-engagement/route.ts` — `checkUserEngagement`;
  * `src/app/page.tsx` — `cleanUsername`, the direct branch of
    `extractUsername`, `processUsernames`, the pending-filter of
    `validateWithGitHub` and the result-merge step of
    `validateSpecificUsernames`.

Remote I/O is modelled by oracle arguments: a `RestOutcome` per username for
the one-resource-per-call protocol, and a `GqlOutcome` per chunk for the
batch-query protocol.  Time is a `Nat` of milliseconds, fixed for the
duration of one request.  JavaScript `Map` objects are modelled as
shadowing association lists: `set` prepends, `get` takes the first match,
which realises exactly the `Map` get/set laws used by the source.
-/

namespace GHV

/-- Profile fields parsed from a 200 response / a GraphQL user object
(`route.ts` lines 13-20). -/
structure ProfileData where
  name : Option String
  bio : Option String
  public_repos : Nat
  followers : Nat
  following : Nat
  created_at : String
deriving DecidableEq, Repr

/-- The status union of `ValidationResult` in `route.ts` line 11. -/
inductive VStatus where
  | valid
  | invalid
  | deleted
  | error
deriving DecidableEq, Repr

/-- `ValidationResult` of `route.ts` lines 9-21. -/
structure ValidationResult where
  username : String
  status : VStatus
  error : Option String
  profileData : Option ProfileData
deriving DecidableEq, Repr

/-- `CacheEntry` of `route.ts` lines 23-26. -/
structure CacheEntry where
  result : ValidationResult
  timestamp : Nat
deriving DecidableEq, Repr

/-- One entry of `rateLimitMap` (`route.ts` line 31). -/
structure RateLimitEntry where
  count : Nat
  resetTime : Nat
deriving DecidableEq, Repr

abbrev Cache := List (String × CacheEntry)
abbrev RateMap := List (String × RateLimitEntry)

/-- First-match lookup: the `get` of a JavaScript `Map` modelled as a
shadowing association list. -/
def mapGet (m : List (String × α)) (k : String) : Option α :=
  (m.find? (fun e => decide (e.1 = k))).map (·.2)

/-- `Map.set`: a fresh binding shadows any older one. -/
def mapSet (m : List (String × α)) (k : String) (v : α) : List (String × α) :=
  (k, v) :: m

/-- `CACHE_DURATION` (`route.ts` line 29): 5 minutes in milliseconds. -/
def CACHE_DURATION : Nat := 5 * 60 * 1000

/-- `getCachedResult` (`route.ts` lines 236-242): return the stored result
when its age is under the freshness window, else nothing. -/
def getCachedResult (cache : Cache) (now : Nat) (username : String) :
    Option ValidationResult :=
  match mapGet cache username with
  | some entry => if now - entry.timestamp < CACHE_DURATION then some entry.result else none
  | none => none

/-- `setCachedResult` (`route.ts` lines 244-249). -/
def setCachedResult (cache : Cache) (now : Nat) (username : String)
    (result : ValidationResult) : Cache :=
  mapSet cache username ⟨result, now⟩

/-- The per-result cache writes the orchestrator performs after a validation
pass (`route.ts` lines 310, 317, 325): one `setCachedResult` per result, in
result order. -/
def applyWrites (cache : Cache) (results : List ValidationResult) (now : Nat) : Cache :=
  results.foldl (fun c r => setCachedResult c now r.username r) cache

/-- The value `checkRateLimit` returns, together with the updated map
(the source mutates the module-level `rateLimitMap` in place). -/
structure RateCheck where
  map : RateMap
  allowed : Bool
  remaining : Nat
  resetTime : Nat
deriving DecidableEq, Repr

/-- `checkRateLimit` of `route.ts` lines 33-54: one counting window of an
hour per caller ip; ceiling 5000 with a token, 60 without. -/
def checkRateLimit (m : RateMap) (now : Nat) (ip : String) (hasToken : Bool) :
    RateCheck :=
  let maxRequests : Nat := if hasToken then 5000 else 60
  match mapGet m ip with
  | none =>
    ⟨mapSet m ip ⟨1, now + 60 * 60 * 1000⟩, true, maxRequests - 1, now + 60 * 60 * 1000⟩
  | some limit =>
    if now > limit.resetTime then
      ⟨mapSet m ip ⟨1, now + 60 * 60 * 1000⟩, true, maxRequests - 1, now + 60 * 60 * 1000⟩
    else if limit.count ≥ maxRequests then
      ⟨m, false, 0, limit.resetTime⟩
    else
      ⟨mapSet m ip ⟨limit.count + 1, limit.resetTime⟩, true,
        maxRequests - (limit.count + 1), limit.resetTime⟩

/-- `checkRateLimit` of `src/unnamed/part_000` lines 26-42: the conservative
30-per-hour variant of the plain endpoint. -/
def checkRateLimit30 (m : RateMap) (now : Nat) (ip : String) : RateCheck :=
  match mapGet m ip with
  | none => ⟨mapSet m ip ⟨1, now + 60 * 60 * 1000⟩, true, 29, now + 60 * 60 * 1000⟩
  | some limit =>
    if now > limit.resetTime then
      ⟨mapSet m ip ⟨1, now + 60 * 60 * 1000⟩, true, 29, now + 60 * 60 * 1000⟩
    else if limit.count ≥ 30 then
      ⟨m, false, 0, limit.resetTime⟩
    else
      ⟨mapSet m ip ⟨limit.count + 1, limit.resetTime⟩, true,
        30 - (limit.count + 1), limit.resetTime⟩

/-- JavaScript truthiness of the optional `githubToken` string: absent or
empty is falsy (`!!githubToken`, `githubToken ? _ : _`). -/
def tokenPresent : Option String → Bool
  | none => false
  | some t => decide (¬ t = "")

/-- ASCII lower-casing of one character (the inputs the source lower-cases
are handles and repo names; on ASCII this is exactly
`String.prototype.toLowerCase`). -/
def lowerChar (c : Char) : Char :=
  if 'A' ≤ c && c ≤ 'Z' then Char.ofNat (c.toNat + 32) else c

/-- JavaScript `s.toLowerCase()` (ASCII). -/
def jsToLower (s : String) : String :=
  ⟨s.data.map lowerChar⟩

/-- JavaScript `s.trim()`: strip leading and trailing whitespace. -/
def jsTrim (s : String) : String :=
  ⟨((s.data.dropWhile Char.isWhitespace).reverse.dropWhile Char.isWhitespace).reverse⟩

/-- Does `pat` lead the list `s`? (used to model `String.includes`). -/
def leadMatch [DecidableEq α] : List α → List α → Bool
  | [], _ => true
  | _ :: _, [] => false
  | a :: pat, b :: s => decide (a = b) && leadMatch pat s

/-- Does `pat` occur as a contiguous run of `s`? -/
def hasSubList [DecidableEq α] (pat : List α) : List α → Bool
  | [] => leadMatch pat []
  | b :: s => leadMatch pat (b :: s) || hasSubList pat s

/-- JavaScript `s.includes(pat)`. -/
def containsSubstr (s pat : String) : Bool :=
  hasSubList pat.data s.data

/-- JavaScript `s.startsWith(pat)`. -/
def jsStartsWith (s pat : String) : Bool :=
  leadMatch pat.data s.data

/-- Worker for `chunkList`: walk the list accumulating the current chunk in
reverse; emit it when it reaches `size`.  Structured this way so the
recursion is structural. -/
def chunkGo (size : Nat) : List α → List α → List (List α)
  | [], acc => if acc.isEmpty then [] else [acc.reverse]
  | x :: xs, acc =>
    let acc2 := x :: acc
    if acc2.length = size then acc2.reverse :: chunkGo size xs [] else chunkGo size xs acc2

/-- The `xs.slice` chunking loops of the source
(`for (i = 0; i < n; i += size)`): runs of `size` elements, the last
possibly shorter.  Every call site passes a positive size. -/
def chunkList (size : Nat) (xs : List α) : List (List α) :=
  chunkGo size xs []

/-! ## Single-resource (REST) validators -/

/-- The observable outcome of one `GET /users/{handle}` call, as the code
discriminates it: the HTTP status family plus, for 403, the parsed body
message (`none` when the body fails to parse), and `fault` for a thrown
fetch/transport error carrying `error.message` when the thrown value is an
`Error`. -/
inductive RestOutcome where
  | ok (profile : ProfileData)
  | notFound
  | forbidden (message : Option String)
  | other (status : Nat) (statusText : String)
  | fault (message : Option String)

/-- The per-username result mapping inside `validateUsernamesREST`
(`route.ts` lines 178-221).  Every 403 yields the rate-limit message: this
branch never inspects the body. -/
def restValidate (username : String) (o : RestOutcome) : ValidationResult :=
  match o with
  | .ok profile =>
    { username, status := .valid, error := none, profileData := some profile }
  | .notFound =>
    { username, status := .deleted, error := some "User not found or account deleted",
      profileData := none }
  | .forbidden _ =>
    { username, status := .error, error := some "Rate limit exceeded - please wait",
      profileData := none }
  | .other status statusText =>
    { username, status := .error,
      error := some ("HTTP " ++ toString status ++ ": " ++ statusText),
      profileData := none }
  | .fault message =>
    { username, status := .error, error := some (message.getD "Unknown error"),
      profileData := none }

/-- `validateUsernamesREST` (`route.ts` lines 155-234): waves of 20 parallel
single-resource calls, results concatenated in wave order (which equals
input order). -/
def validateUsernamesREST (usernames : List String)
    (rest : String → RestOutcome) : List ValidationResult :=
  ((chunkList 20 usernames).map (fun chunk => chunk.map (fun u => restValidate u (rest u)))).flatten

/-- `validateGitHubUsername` of `src/unnamed/part_000` lines 44-110: the
sequential single-resource validator.  Unlike `restValidate`, a 403 response
has its body inspected: a message containing "rate limit" yields the
rate-limit error, anything else the access-forbidden error. -/
def validateGitHubUsername (username : String) (o : RestOutcome) : ValidationResult :=
  match o with
  | .ok profile =>
    { username, status := .valid, error := none, profileData := some profile }
  | .notFound =>
    { username, status := .deleted, error := some "User not found or account deleted",
      profileData := none }
  | .forbidden message =>
    match message with
    | some m =>
      if containsSubstr m "rate limit" then
        { username, status := .error, error := some "Rate limit exceeded - please wait",
          profileData := none }
      else
        { username, status := .error,
          error := some "Access forbidden - may be private or suspended account",
          profileData := none }
    | none =>
      { username, status := .error,
        error := some "Access forbidden - may be private or suspended account",
        profileData := none }
  | .other status statusText =>
    { username, status := .error,
      error := some ("HTTP " ++ toString status ++ ": " ++ statusText),
      profileData := none }
  | .fault message =>
    { username, status := .error, error := some (message.getD "Unknown error"),
      profileData := none }

/-! ## Batch-query (GraphQL) validator -/

/-- One user object of the GraphQL response (`route.ts` lines 62-70). -/
structure GqlUserData where
  name : Option String
  bio : Option String
  repositoriesTotal : Nat
  followersTotal : Nat
  followingTotal : Nat
  createdAt : String

/-- The profile parsed from a GraphQL user object (`route.ts` lines 124-131). -/
def GqlUserData.toProfile (u : GqlUserData) : ProfileData :=
  { name := u.name, bio := u.bio, public_repos := u.repositoriesTotal,
    followers := u.followersTotal, following := u.followingTotal,
    created_at := u.createdAt }

/-- A structured GraphQL error: a path (whose head is the alias) and a type
string (`route.ts` line 118 reads `err.path?.[0]` and `err.type`). -/
structure GqlError where
  path : List String
  type : String

/-- The outcome of one GraphQL chunk call: `fail` when the fetch faults or
`response.ok` is false (the function throws, `route.ts` lines 96-98, 149-152);
otherwise the per-alias data map and the structured error list. -/
inductive GqlOutcome where
  | fail
  | ok (data : String → Option GqlUserData) (errors : List GqlError)

/-- The NOT_FOUND check of `route.ts` line 118: some structured error whose
path starts with the alias and whose type is NOT_FOUND. -/
def hasNotFound (errors : List GqlError) (aliasName : String) : Bool :=
  errors.any (fun err => decide (err.path.head? = some aliasName ∧ err.type = "NOT_FOUND"))

/-- The per-alias result mapping of `validateUsernamesGraphQL`
(`route.ts` lines 113-146). -/
def gqlResultFor (data : String → Option GqlUserData) (errors : List GqlError)
    (username : String) (index : Nat) : ValidationResult :=
  let aliasName := "user" ++ toString index
  match data aliasName with
  | some userData =>
    { username, status := .valid, error := none,
      profileData := some userData.toProfile }
  | none =>
    if hasNotFound errors aliasName then
      { username, status := .deleted, error := some "User not found or account deleted",
        profileData := none }
    else
      { username, status := .error, error := some "Unexpected GraphQL error",
        profileData := none }

/-- `validateUsernamesGraphQL` (`route.ts` lines 56-153): on a chunk-level
failure the exception propagates to the caller (`Except.error`); otherwise
one result per username, matched through its alias `user<index>`. -/
def validateUsernamesGraphQL (usernames : List String) (o : GqlOutcome) :
    Except Unit (List ValidationResult) :=
  match o with
  | .fail => .error ()
  | .ok data errors =>
    .ok (usernames.enum.map (fun p => gqlResultFor data errors p.2 p.1))

/-! ## The batch orchestrator (`POST` of `route.ts`) -/

/-- `method` of `ValidationRequest` (`route.ts` line 6). -/
inductive Method where
  | graphql
  | rest
  | auto
deriving DecidableEq, Repr

/-- The strategy selection for cache misses (`route.ts` line 293):
`useGraphQL` is set when the explicit method is graphql, or the method is
auto with a (truthy) token and at least 10 misses. -/
def chooseGraphQL (method : Method) (githubToken : Option String)
    (missCount : Nat) : Bool :=
  decide (method = .graphql) ||
    (decide (method = .auto) && tokenPresent githubToken && decide (missCount ≥ 10))

/-- The cache partition of `route.ts` lines 277-287: walk the submitted
usernames in order, collecting fresh cached results and the misses. -/
def partitionCache (cache : Cache) (now : Nat) :
    List String → List ValidationResult × List String
  | [] => ([], [])
  | u :: rest =>
    let (cs, us) := partitionCache cache now rest
    match getCachedResult cache now u with
    | some r => (r :: cs, us)
    | none => (cs, u :: us)

/-- The GraphQL batch loop of `route.ts` lines 300-311, accumulating results,
cache writes and the number of network calls.  Returns `none` in the first
component when some batch threw: the loop stops there and control transfers
to the `catch`, keeping the cache writes already made. -/
def runGraphQLBatches (gql : Nat → GqlOutcome) (now : Nat) :
    List (List String) → Nat → List ValidationResult → Cache → Nat →
      Option (List ValidationResult) × Cache × Nat
  | [], _, acc, cache, calls => (some acc, cache, calls)
  | batch :: rest, i, acc, cache, calls =>
    match validateUsernamesGraphQL batch (gql i) with
    | .error _ => (none, cache, calls + 1)
    | .ok rs => runGraphQLBatches gql now rest (i + 1) (acc ++ rs) (applyWrites cache rs now) (calls + 1)

/-- The quota/cache server state the batch route keeps across requests. -/
structure PostState where
  cache : Cache
  rateMap : RateMap
deriving DecidableEq, Repr

structure RateInfo where
  remaining : Nat
  resetTime : Nat
  limit : Nat
deriving DecidableEq, Repr

structure CacheStats where
  cached : Nat
  validated : Nat
  total : Nat
deriving DecidableEq, Repr

/-- The response of the batch route.  The results array entries are
`Option`s because line 336 asserts non-nullness (`cached || uncached!`): an
entry is `none` exactly when neither the cached nor the freshly validated
results contain the username. -/
inductive PostResponse where
  | badRequest (message : String)
  | tooMany (resetTime : Nat) (remaining : Nat)
  | ok (results : List (Option ValidationResult)) (rateLimit : RateInfo)
      (cacheStats : CacheStats) (method : String)
deriving DecidableEq, Repr

/-- The observable outcome of one batch request: the response, the final
server state, how many remote fetches were issued, and (model bookkeeping
for the `uncachedResults` variable) the results the validation pass itself
produced. -/
structure PostOutput where
  response : PostResponse
  state : PostState
  networkCalls : Nat
  validatedResults : List ValidationResult
deriving DecidableEq, Repr

/-- The `try`-block of `route.ts` lines 297-329 that validates the cache
misses: the GraphQL batch loop when the graphql strategy was chosen and a
token is present (falling back to REST over the whole uncached set when a
batch throws, lines 319-329), otherwise parallel REST.  Returns the
produced results (`uncachedResults`), the cache after the writes, and the
number of remote fetches. -/
def runValidationPass (cache : Cache) (now : Nat) (uncached : List String)
    (useGraphQL hasToken : Bool) (gql : Nat → GqlOutcome)
    (rest : String → RestOutcome) : List ValidationResult × Cache × Nat :=
  if uncached.isEmpty then ([], cache, 0)
  else if useGraphQL && hasToken then
    match (runGraphQLBatches gql now (chunkList 100 uncached) 0 [] cache 0).1 with
    | some rs =>
      (rs, (runGraphQLBatches gql now (chunkList 100 uncached) 0 [] cache 0).2.1,
        (runGraphQLBatches gql now (chunkList 100 uncached) 0 [] cache 0).2.2)
    | none =>
      -- catch: fall back to REST over the whole uncached set,
      -- keeping the cache writes the completed batches already made
      (validateUsernamesREST uncached rest,
        applyWrites (runGraphQLBatches gql now (chunkList 100 uncached) 0 [] cache 0).2.1
          (validateUsernamesREST uncached rest) now,
        (runGraphQLBatches gql now (chunkList 100 uncached) 0 [] cache 0).2.2 + uncached.length)
  else
    (validateUsernamesREST uncached rest,
      applyWrites cache (validateUsernamesREST uncached rest) now,
      uncached.length)

/-- The `POST` handler of `route.ts` lines 251-357 (named `POSTbatch` to
distinguish it from the plain route's handler).  Remote calls are the two
oracles; `now` is the request's clock reading. -/
def POSTbatch (st : PostState) (now : Nat) (ip : String) (usernames : List String)
    (githubToken : Option String) (method : Method)
    (gql : Nat → GqlOutcome) (rest : String → RestOutcome) : PostOutput :=
  if usernames.length = 0 then
    ⟨.badRequest "Invalid request: usernames array is required", st, 0, []⟩
  else if usernames.length > 5000 then
    ⟨.badRequest "Too many usernames. Maximum 5000 per request.", st, 0, []⟩
  else
    let hasToken := tokenPresent githubToken
    let rate := checkRateLimit st.rateMap now ip hasToken
    if ¬ rate.allowed then
      ⟨.tooMany rate.resetTime rate.remaining, ⟨st.cache, rate.map⟩, 0, []⟩
    else
      let part := partitionCache st.cache now usernames
      let cachedResults := part.1
      let uncached := part.2
      let useGraphQL := !uncached.isEmpty && chooseGraphQL method githubToken uncached.length
      let run := runValidationPass st.cache now uncached useGraphQL hasToken gql rest
      let validated := run.1
      let allResults := usernames.map (fun u =>
        (cachedResults.find? (fun r => decide (r.username = u))).orElse
          (fun _ => validated.find? (fun r => decide (r.username = u))))
      ⟨.ok allResults
          ⟨rate.remaining, rate.resetTime, if hasToken then 5000 else 60⟩
          ⟨cachedResults.length, validated.length, usernames.length⟩
          (if useGraphQL then "graphql" else "rest"),
        ⟨run.2.1, rate.map⟩, run.2.2, validated⟩

/-- The `method` field of a successful batch response (absent on error
responses). -/
def methodOf : PostResponse → Option String
  | .ok _ _ _ m => some m
  | _ => none

/-- The response of the plain route (`src/unnamed/part_000`). -/
inductive PlainResponse where
  | badRequest (message : String)
  | tooMany (resetTime : Nat) (remaining : Nat)
  | ok (results : List ValidationResult) (remaining : Nat) (resetTime : Nat)
deriving DecidableEq, Repr

structure PlainOutput where
  response : PlainResponse
  rateMap : RateMap
  networkCalls : Nat
deriving DecidableEq, Repr

/-- The `POST` handler of `src/unnamed/part_000` lines 112-156: rate check
first, then bounds checks, then one sequential `validateGitHubUsername` per
username. -/
def POSTplain (rateMap : RateMap) (now : Nat) (ip : String)
    (usernames : List String) (rest : String → RestOutcome) : PlainOutput :=
  let rate := checkRateLimit30 rateMap now ip
  if ¬ rate.allowed then
    ⟨.tooMany rate.resetTime rate.remaining, rate.map, 0⟩
  else if usernames.length = 0 then
    ⟨.badRequest "Invalid request: usernames array is required", rate.map, 0⟩
  else if usernames.length > 20 then
    ⟨.badRequest "Too many usernames. Maximum 20 per request.", rate.map, 0⟩
  else
    let results := usernames.map (fun u => validateGitHubUsername u (rest u))
    ⟨.ok results (rate.remaining - usernames.length) rate.resetTime,
      rate.map, usernames.length⟩

/-! ## Engagement checker (`check-repository-engagement/route.ts`) -/

/-- One entry of the starred-repository list body (`r.owner?.login`,
`r.name`: optional chaining models absent fields as `none`). -/
structure StarEntry where
  ownerLogin : Option String
  name : Option String

/-- One entry of the fork-repository list body (`r.fork`, `r.parent`). -/
structure ForkParent where
  ownerLogin : Option String
  name : Option String

structure ForkEntry where
  fork : Bool
  parent : Option ForkParent

/-- The observable outcome of one of the two REST list calls inside
`checkUserEngagement`: a successful response with its parsed body, a
non-success response (`res.ok` false), or a thrown fetch fault. -/
inductive CallOut (α : Type) where
  | ok (body : List α)
  | notOk
  | fault

/-- The starred-repository match (`check-repository-engagement/route.ts`
lines 69-73): case-insensitive owner and name comparison, absent fields
never match. -/
def starMatches (targetOwner targetRepo : String) (e : StarEntry) : Bool :=
  (match e.ownerLogin with
   | some s => decide (jsToLower s = jsToLower targetOwner)
   | none => false) &&
  (match e.name with
   | some n => decide (jsToLower n = jsToLower targetRepo)
   | none => false)

/-- The fork match (lines 87-94): the entry must be a fork with a parent
matching the target case-insensitively. -/
def forkMatches (targetOwner targetRepo : String) (e : ForkEntry) : Bool :=
  e.fork &&
  (match e.parent with
   | some p =>
     (match p.ownerLogin with
      | some s => decide (jsToLower s = jsToLower targetOwner)
      | none => false) &&
     (match p.name with
      | some n => decide (jsToLower n = jsToLower targetRepo)
      | none => false)
   | none => false)

/-- `UserEngagement` (`check-repository-engagement/route.ts` lines 10-15). -/
structure UserEngagement where
  username : String
  hasStarred : Bool
  hasForked : Bool
  error : Option String
deriving DecidableEq, Repr

/-- `checkUserEngagement` (`check-repository-engagement/route.ts` lines
45-108).  Each of the two calls sits in its own `try` whose `catch` only
logs, so a faulted or non-success call leaves its flag `false`; the outer
`catch` (which would set `error`) is unreachable from the two calls because
their exceptions are swallowed inside, so `error` is always absent. -/
def checkUserEngagement (username targetOwner targetRepo : String)
    (starred : CallOut StarEntry) (forks : CallOut ForkEntry) : UserEngagement :=
  let hasStarred :=
    match starred with
    | .ok body => body.any (starMatches targetOwner targetRepo)
    | .notOk => false
    | .fault => false
  let hasForked :=
    match forks with
    | .ok body => body.any (forkMatches targetOwner targetRepo)
    | .notOk => false
    | .fault => false
  { username, hasStarred, hasForked, error := none }

/-! ## Client-side control loop (`page.tsx`) -/

/-- The status union of `ProcessedUser` (`page.tsx`). -/
inductive UStatus where
  | pending
  | processing
  | valid
  | invalid
  | duplicate
  | deleted
  | error
deriving DecidableEq, Repr

/-- `ProcessedUser` of `page.tsx` (the fields the claims touch). -/
structure ProcessedUser where
  originalValue : String
  username : Option String
  status : UStatus
  error : Option String
  index : Nat
  profileData : Option ProfileData
deriving DecidableEq, Repr

/-- A `VerificationResult` status used as a record status by the merge step
(in the source both are the same string union). -/
def VStatus.toU : VStatus → UStatus
  | .valid => .valid
  | .invalid => .invalid
  | .deleted => .deleted
  | .error => .error

/-- One character class of the username rule regex. -/
def isAlnum (c : Char) : Bool :=
  ('a' ≤ c && c ≤ 'z') || ('A' ≤ c && c ≤ 'Z') || ('0' ≤ c && c ≤ '9')

/-- The regex test of `cleanUsername` (`page.tsx` line 277),
`[a-zA-Z0-9]([a-zA-Z0-9-]*[a-zA-Z0-9])?` anchored at both ends: a single
alphanumeric character, or an alphanumeric first and last character with
alphanumerics and hyphens between. -/
def usernameFormatOk (s : String) : Bool :=
  match s.data with
  | [] => false
  | [c] => isAlnum c
  | c :: cs =>
    isAlnum c && cs.dropLast.all (fun d => isAlnum d || decide (d = '-')) &&
      (match cs.getLast? with
       | some d => isAlnum d
       | none => false)

/-- `cleanUsername` (`page.tsx` lines 271-287). -/
def cleanUsername (username : String) : Option String :=
  if username = "" then none
  else
    let u := jsTrim username
    if ¬ usernameFormatOk u then none
    else if decide (u.length = 0) || decide (u.length > 39) then none
    else some u

/-- The `@` strip of `extractUsername` (`page.tsx` lines 258-260). -/
def stripAtSign (s : String) : String :=
  if jsStartsWith s "@" then s.drop 1 else s

/-- The leading-marker strip `replace(/^(?:github:|gh:|git:)/i, "")`
(`page.tsx` line 263): remove one case-insensitive marker at the start,
trying the alternatives left to right. -/
def stripGhMarker (s : String) : String :=
  if jsStartsWith (jsToLower s) "github:" then s.drop 7
  else if jsStartsWith (jsToLower s) "gh:" then s.drop 3
  else if jsStartsWith (jsToLower s) "git:" then s.drop 4
  else s

/-- `replace(/\/+$/, "")` (`page.tsx` line 266). -/
def dropTrailingSlashes (s : String) : String :=
  ⟨(s.data.reverse.dropWhile (fun c => decide (c = '/'))).reverse⟩

/-- The direct-handle branch of `extractUsername` (`page.tsx` lines 230-268).
The source first tries three URL regexes; each of them can only match a
string containing `github.com/`, `.github.io`, or `git@github.com:`
respectively, so on inputs free of those substrings (all handle inputs this
development considers; URL/free-form extraction is outside the spec's core
scope) `extractUsername` reduces to this direct pipeline. -/
def extractUsernameDirect (value : String) : Option String :=
  if value = "" then none
  else
    let v := jsTrim value
    if v = "" then none
    else
      let v1 := stripAtSign v
      let v2 := stripGhMarker v1
      let v3 := jsTrim (dropTrailingSlashes v2)
      cleanUsername v3

/-- The retro-flag of `processUsernames` (`page.tsx` lines 320-326): the
first occurrence (looked up by its index; indexes are unique) is turned into
a duplicate when it is still pending. -/
def retagDuplicate (firstIdx : Nat) (u : ProcessedUser) : ProcessedUser :=
  if decide (u.index = firstIdx) && decide (u.status = .pending) then
    { u with status := .duplicate, error := some "Duplicate username found" }
  else u

/-- The first-pass loop of `processUsernames` (`page.tsx` lines 306-343),
recursing over the remaining rows with the users built so far and the
first-occurrence map `seenUsernames` (keyed by the lowercased username). -/
def processRows (extract : String → Option String) :
    List String → Nat → List ProcessedUser → List (String × Nat) → List ProcessedUser
  | [], _, users, _ => users
  | row :: rest, idx, users, seen =>
    match extract row with
    | none =>
      processRows extract rest (idx + 1)
        (users ++ [⟨row, none, .invalid, some "Invalid username format or not found", idx, none⟩])
        seen
    | some uname =>
      match mapGet seen (jsToLower uname) with
      | some firstIdx =>
        processRows extract rest (idx + 1)
          ((users.map (retagDuplicate firstIdx)) ++
            [⟨row, some uname, .duplicate, some "Duplicate username found", idx, none⟩])
          seen
      | none =>
        processRows extract rest (idx + 1)
          (users ++ [⟨row, some uname, .pending, none, idx, none⟩])
          (mapSet seen (jsToLower uname) idx)

/-- `processUsernames` (`page.tsx` lines 289-343) restricted to its
classification pass: the extracted column values are `rows`; extraction is
the collaborator `extract`. -/
def processUsernames (extract : String → Option String) (rows : List String) :
    List ProcessedUser :=
  processRows extract rows 0 [] []

/-- The submission filter of `validateWithGitHub` (`page.tsx` line 926):
only pending records with a (truthy) username are sent to the validator. -/
def usersToValidate (users : List ProcessedUser) : List ProcessedUser :=
  users.filter (fun u =>
    decide (u.status = .pending) &&
      (match u.username with
       | some n => decide (¬ n = "")
       | none => false))

/-- `usersToValidate.map(u => u.username!).filter(Boolean)`
(`page.tsx` line 939). -/
def submittedUsernames (users : List ProcessedUser) : List String :=
  (usersToValidate users).filterMap (·.username)

/-- The merge step of `validateSpecificUsernames` (`page.tsx` lines 569-599
and 684-698): each record whose username was submitted and is found in the
returned results takes that result's status, error and profile. -/
def clientMerge (users : List ProcessedUser) (submitted : List String)
    (results : List ValidationResult) : List ProcessedUser :=
  users.map (fun user =>
    match user.username with
    | some un =>
      if submitted.any (fun s => decide (s = un)) then
        match results.find? (fun r => decide (r.username = un)) with
        | some r =>
          { user with
            status := r.status.toU
            error := r.error
            profileData := r.profileData }
        | none => user
      else user
    | none => user)

/-- Cache well-formedness: every stored entry's result carries the key it is
stored under.  Every write the code performs is
`setCachedResult(result.username, result)`, so the invariant holds for every
cache the server can actually build. -/
def wfCache (cache : Cache) : Prop :=
  ∀ p ∈ cache, p.2.result.username = p.1

/-- What one `processRows` step never changes about an already-built record:
its username and index are kept, and a duplicate stays a duplicate. -/
def preservesUser (a b : ProcessedUser) : Prop :=
  b.username = a.username ∧ b.index = a.index ∧
    (a.status = .duplicate → b.status = .duplicate)

/-- The loop invariant of `processUsernames`'s first pass: record indexes
equal positions; every `seenUsernames` entry points at a record carrying a
username with that lowercasing, still pending or already retro-flagged; and
every pending record is registered in `seenUsernames` under its own
position (pending records are exactly the first occurrences). -/
structure PUInv (users : List ProcessedUser) (seen : List (String × Nat)) : Prop where
  idx_eq : ∀ (p : Nat) (pu : ProcessedUser), users[p]? = some pu → pu.index = p
  seen_user : ∀ (l : String) (f : Nat), mapGet seen l = some f →
    ∃ pu : ProcessedUser, users[f]? = some pu ∧
      ∃ u : String, pu.username = some u ∧ jsToLower u = l ∧
        (pu.status = .pending ∨ pu.status = .duplicate)
  pending_first : ∀ (p : Nat) (pu : ProcessedUser) (u : String), users[p]? = some pu →
    pu.username = some u → pu.status = .pending → mapGet seen (jsToLower u) = some p

/-! ## Lemmas about the embedding -/

theorem chunkGo_flatten (size : Nat) :
    ∀ (xs acc : List α), (chunkGo size xs acc).flatten = acc.reverse ++ xs := by
  intro xs
  induction xs with
  | nil =>
    intro acc
    by_cases h : acc.isEmpty
    · have : acc = [] := List.isEmpty_iff.mp h
      subst this
      simp [chunkGo]
    · simp [chunkGo, h]
  | cons x xs ih =>
    intro acc
    simp only [chunkGo]
    split
    · rw [List.flatten_cons, ih []]
      simp
    · rw [ih (x :: acc)]
      simp

theorem chunkList_flatten (size : Nat) (xs : List α) :
    (chunkList size xs).flatten = xs := by
  simpa using chunkGo_flatten size xs []

theorem validateUsernamesREST_eq_map (usernames : List String)
    (rest : String → RestOutcome) :
    validateUsernamesREST usernames rest =
      usernames.map (fun u => restValidate u (rest u)) := by
  unfold validateUsernamesREST
  rw [← List.map_flatten, chunkList_flatten]

theorem restValidate_username (u : String) (o : RestOutcome) :
    (restValidate u o).username = u := by
  cases o <;> rfl

theorem validateGitHubUsername_username (u : String) (o : RestOutcome) :
    (validateGitHubUsername u o).username = u := by
  cases o with
  | forbidden m =>
    cases m with
    | some s =>
      by_cases h : containsSubstr s "rate limit" <;> simp [validateGitHubUsername, h]
    | none => rfl
  | _ => rfl

theorem gqlResultFor_username (data : String → Option GqlUserData)
    (errors : List GqlError) (u : String) (i : Nat) :
    (gqlResultFor data errors u i).username = u := by
  simp only [gqlResultFor]
  split
  · rfl
  · split <;> rfl

theorem validateUsernamesGraphQL_ok (usernames : List String)
    (data : String → Option GqlUserData) (errors : List GqlError) :
    ∃ rs, validateUsernamesGraphQL usernames (.ok data errors) = .ok rs ∧
      rs.map (·.username) = usernames := by
  refine ⟨_, rfl, ?_⟩
  rw [List.map_map]
  have : ((fun r => r.username) ∘ fun p : Nat × String => gqlResultFor data errors p.2 p.1) =
      fun p : Nat × String => p.2 := by
    funext p
    exact gqlResultFor_username data errors p.2 p.1
  rw [this]
  exact List.enum_map_snd usernames

theorem runGraphQLBatches_some (gql : Nat → GqlOutcome) (now : Nat) :
    ∀ (bs : List (List String)) (i : Nat) (acc : List ValidationResult)
      (c : Cache) (k : Nat) (rs : List ValidationResult) (c2 : Cache) (k2 : Nat),
      runGraphQLBatches gql now bs i acc c k = (some rs, c2, k2) →
      ∃ tail, rs = acc ++ tail ∧ tail.map (·.username) = bs.flatten ∧
        c2 = applyWrites c tail now := by
  intro bs
  induction bs with
  | nil =>
    intro i acc c k rs c2 k2 h
    simp only [runGraphQLBatches, Prod.mk.injEq] at h
    obtain ⟨h1, h2, h3⟩ := h
    refine ⟨[], ?_, ?_, ?_⟩
    · exact (Option.some_inj.mp h1).symm ▸ (List.append_nil acc).symm
    · simp
    · simp [applyWrites, ← h2]
  | cons b bs ih =>
    intro i acc c k rs c2 k2 h
    simp only [runGraphQLBatches] at h
    cases hg : gql i with
    | fail =>
      rw [hg] at h
      simp [validateUsernamesGraphQL] at h
    | ok d e =>
      rw [hg] at h
      obtain ⟨brs, hbrs, hmap⟩ := validateUsernamesGraphQL_ok b d e
      rw [hbrs] at h
      obtain ⟨tail, ht1, ht2, ht3⟩ := ih (i + 1) (acc ++ brs) _ (k + 1) rs c2 k2 h
      refine ⟨brs ++ tail, by simpa using ht1, ?_, ?_⟩
      · simp [ht2, hmap]
      · rw [ht3]
        simp [applyWrites, List.foldl_append]

theorem mapGet_mapSet (m : List (String × α)) (k u : String) (v : α) :
    mapGet (mapSet m k v) u = if k = u then some v else mapGet m u := by
  by_cases h : k = u <;> simp [mapGet, mapSet, List.find?_cons, h]

/-- Last-write-wins: a lookup after a sequence of result writes returns the
most recent write for that username, falling back to the prior cache. -/
theorem mapGet_applyWrites (now : Nat) (u : String) :
    ∀ (rs : List ValidationResult) (cache : Cache),
      mapGet (applyWrites cache rs now) u =
        match rs.reverse.find? (fun r => decide (r.username = u)) with
        | some r => some ⟨r, now⟩
        | none => mapGet cache u := by
  intro rs
  induction rs using List.reverseRecOn with
  | nil => intro cache; simp [applyWrites]
  | append_singleton ys y ih =>
    intro cache
    have happ : applyWrites cache (ys ++ [y]) now =
        setCachedResult (applyWrites cache ys now) now y.username y := by
      simp [applyWrites, List.foldl_append]
    rw [happ, setCachedResult, mapGet_mapSet]
    rw [List.reverse_append]
    simp only [List.reverse_singleton, List.singleton_append, List.find?_cons]
    by_cases h : y.username = u
    · simp [h]
    · simp only [h, decide_eq_true_eq, if_neg h]
      rw [ih cache]
      simp [decide_eq_false h]

theorem getCachedResult_username {cache : Cache} {now : Nat} {u : String}
    {r : ValidationResult} (wf : wfCache cache)
    (h : getCachedResult cache now u = some r) : r.username = u := by
  unfold getCachedResult at h
  cases hm : mapGet cache u with
  | none => rw [hm] at h; exact absurd h (by simp)
  | some entry =>
    rw [hm] at h
    unfold mapGet at hm
    cases hf : cache.find? (fun e => decide (e.1 = u)) with
    | none => rw [hf] at hm; exact absurd hm (by simp)
    | some p =>
      rw [hf] at hm
      have hmem := List.mem_of_find?_eq_some hf
      have hkey : p.1 = u := by simpa using List.find?_some hf
      have hval : p.2 = entry := by simpa using hm
      change (if now - entry.timestamp < CACHE_DURATION then some entry.result else none)
        = some r at h
      by_cases hfresh : now - entry.timestamp < CACHE_DURATION
      · rw [if_pos hfresh] at h
        have : entry.result = r := by simpa using h
        rw [← this, ← hval, wf p hmem, hkey]
      · rw [if_neg hfresh] at h
        exact absurd h (by simp)

theorem partitionCache_miss_mem (cache : Cache) (now : Nat) :
    ∀ (us : List String) (u : String), u ∈ us →
      getCachedResult cache now u = none →
      u ∈ (partitionCache cache now us).2 := by
  intro us
  induction us with
  | nil => intro u hu; exact absurd hu (by simp)
  | cons v vs ih =>
    intro u hu hmiss
    simp only [partitionCache]
    cases hv : getCachedResult cache now v with
    | some r =>
      rcases List.mem_cons.mp hu with rfl | hu2
      · rw [hv] at hmiss; exact absurd hmiss (by simp)
      · simpa using ih u hu2 hmiss
    | none =>
      rcases List.mem_cons.mp hu with rfl | hu2
      · simp
      · simp only []
        exact List.mem_cons_of_mem v (ih u hu2 hmiss)

theorem partitionCache_hit_find (cache : Cache) (now : Nat) (wf : wfCache cache) :
    ∀ (us : List String) (u : String) (r : ValidationResult), u ∈ us →
      getCachedResult cache now u = some r →
      (partitionCache cache now us).1.find? (fun x => decide (x.username = u)) = some r := by
  intro us
  induction us with
  | nil => intro u r hu; exact absurd hu (by simp)
  | cons v vs ih =>
    intro u r hu hhit
    simp only [partitionCache]
    cases hv : getCachedResult cache now v with
    | some rv =>
      simp only [List.find?_cons]
      by_cases heq : v = u
      · subst heq
        rw [hv] at hhit
        have : rv = r := by simpa using hhit
        subst this
        rw [getCachedResult_username wf hv]
        simp
      · have hrvu : rv.username = v := getCachedResult_username wf hv
        have : ¬ rv.username = u := by rw [hrvu]; exact heq
        simp only [decide_eq_false this]
        rcases List.mem_cons.mp hu with rfl | hu2
        · exact absurd rfl heq
        · exact ih u r hu2 hhit
    | none =>
      rcases List.mem_cons.mp hu with rfl | hu2
      · rw [hv] at hhit; exact absurd hhit (by simp)
      · exact ih u r hu2 hhit

theorem partitionCache_allHit (cache : Cache) (now : Nat) :
    ∀ us : List String, (∀ u ∈ us, (getCachedResult cache now u).isSome) →
      (partitionCache cache now us).2 = [] := by
  intro us
  induction us with
  | nil => intro _; rfl
  | cons v vs ih =>
    intro h
    simp only [partitionCache]
    cases hv : getCachedResult cache now v with
    | some rv => exact ih (fun u hu => h u (List.mem_cons_of_mem v hu))
    | none =>
      have := h v (List.mem_cons_self v vs)
      rw [hv] at this
      exact absurd this (by simp)

theorem partitionCache_allHit_length (cache : Cache) (now : Nat) :
    ∀ us : List String, (∀ u ∈ us, (getCachedResult cache now u).isSome) →
      (partitionCache cache now us).1.length = us.length := by
  intro us
  induction us with
  | nil => intro _; rfl
  | cons v vs ih =>
    intro h
    simp only [partitionCache]
    cases hv : getCachedResult cache now v with
    | some rv =>
      simp only [List.length_cons]
      rw [ih (fun u hu => h u (List.mem_cons_of_mem v hu))]
    | none =>
      have := h v (List.mem_cons_self v vs)
      rw [hv] at this
      exact absurd this (by simp)

theorem find_username_isSome (rs : List ValidationResult) (u : String)
    (h : u ∈ rs.map (·.username)) :
    (rs.find? (fun r => decide (r.username = u))).isSome := by
  obtain ⟨r, hr, hru⟩ := List.mem_map.mp h
  exact List.find?_isSome.mpr ⟨r, hr, by simp [hru]⟩

/-- In every branch of the validation pass, the produced results carry
exactly the uncached usernames, in order. -/
theorem runValidationPass_usernames (cache : Cache) (now : Nat)
    (uncached : List String) (ug ht : Bool) (gql : Nat → GqlOutcome)
    (rest : String → RestOutcome) :
    (runValidationPass cache now uncached ug ht gql rest).1.map (·.username) = uncached := by
  have hrest : (validateUsernamesREST uncached rest).map (·.username) = uncached := by
    rw [validateUsernamesREST_eq_map, List.map_map]
    have : ((fun r => r.username) ∘ fun u => restValidate u (rest u)) = fun u : String => u := by
      funext u
      exact restValidate_username u (rest u)
    rw [this]
    exact List.map_id' uncached
  unfold runValidationPass
  by_cases hemp : uncached.isEmpty
  · simp [hemp, List.isEmpty_iff.mp hemp]
  · rw [if_neg hemp]
    by_cases hb : ug && ht
    · rw [if_pos hb]
      cases hg : (runGraphQLBatches gql now (chunkList 100 uncached) 0 [] cache 0).1 with
      | some rs =>
        obtain ⟨tail, ht1, ht2, _⟩ := runGraphQLBatches_some gql now
          (chunkList 100 uncached) 0 [] cache 0 rs _ _ (by rw [← hg])
        rw [List.nil_append] at ht1
        subst ht1
        rw [ht2, chunkList_flatten]
      | none =>
        exact hrest
    · rw [if_neg hb]
      exact hrest

/-- In every branch of the validation pass, the final cache answers a lookup
with the most recent result written for that username. -/
theorem runValidationPass_cache (cache : Cache) (now : Nat)
    (uncached : List String) (ug ht : Bool) (gql : Nat → GqlOutcome)
    (rest : String → RestOutcome) (u : String) (r : ValidationResult)
    (hlast : (runValidationPass cache now uncached ug ht gql rest).1.reverse.find?
        (fun x => decide (x.username = u)) = some r) :
    mapGet (runValidationPass cache now uncached ug ht gql rest).2.1 u = some ⟨r, now⟩ := by
  unfold runValidationPass at hlast ⊢
  by_cases hemp : uncached.isEmpty
  · rw [if_pos hemp] at hlast
    exact absurd hlast (by simp)
  · rw [if_neg hemp] at hlast ⊢
    by_cases hb : ug && ht
    · rw [if_pos hb] at hlast ⊢
      cases hg : (runGraphQLBatches gql now (chunkList 100 uncached) 0 [] cache 0).1 with
      | some rs =>
        rw [hg] at hlast
        replace hlast : rs.reverse.find? (fun x => decide (x.username = u)) = some r := hlast
        show mapGet (runGraphQLBatches gql now (chunkList 100 uncached) 0 [] cache 0).2.1 u
          = some ⟨r, now⟩
        obtain ⟨tail, ht1, _, ht3⟩ := runGraphQLBatches_some gql now
          (chunkList 100 uncached) 0 [] cache 0 rs _ _ (by rw [← hg])
        rw [List.nil_append] at ht1
        subst ht1
        rw [ht3, mapGet_applyWrites, hlast]
      | none =>
        rw [hg] at hlast
        replace hlast : (validateUsernamesREST uncached rest).reverse.find?
          (fun x => decide (x.username = u)) = some r := hlast
        show mapGet (applyWrites (runGraphQLBatches gql now (chunkList 100 uncached) 0 [] cache 0).2.1
          (validateUsernamesREST uncached rest) now) u = some ⟨r, now⟩
        rw [mapGet_applyWrites, hlast]
    · rw [if_neg hb] at hlast ⊢
      rw [mapGet_applyWrites, hlast]

/-! ## Claim theorems -/

/-- C4: for every request with cache misses, the orchestrator chooses the
graphql strategy exactly when the explicit method is graphql, or the method
is auto with credentials present and at least 10 misses; otherwise the rest
strategy.  15 fresh handles with credentials under auto take the batch
path, 5 take the single-resource path. -/
theorem C4_strategy_selection :
    (∀ (method : Method) (tok : Option String) (missCount : Nat),
      chooseGraphQL method tok missCount = true ↔
        (method = .graphql ∨
          (method = .auto ∧ tokenPresent tok = true ∧ 10 ≤ missCount))) ∧
    methodOf (POSTbatch ⟨[], []⟩ 0 "ip" ((List.range 15).map (fun i => "v" ++ toString i))
      (some "tok") .auto (fun _ => .ok (fun _ => some ⟨none, none, 0, 0, 0, ""⟩) [])
      (fun _ => .notFound)).response = some "graphql" ∧
    methodOf (POSTbatch ⟨[], []⟩ 0 "ip" ((List.range 5).map (fun i => "v" ++ toString i))
      (some "tok") .auto (fun _ => .ok (fun _ => some ⟨none, none, 0, 0, 0, ""⟩) [])
      (fun _ => .notFound)).response = some "rest" := by
  refine ⟨?_, by decide, by decide⟩
  intro method tok missCount
  simp only [chooseGraphQL, Bool.or_eq_true, Bool.and_eq_true, decide_eq_true_eq]
  constructor
  · rintro (h | ⟨⟨h1, h2⟩, h3⟩)
    · exact Or.inl h
    · exact Or.inr ⟨h1, h2, h3⟩
  · rintro (h | ⟨h1, h2, h3⟩)
    · exact Or.inl h
    · exact Or.inr ⟨⟨h1, h2⟩, h3⟩

/-- C5: per-alias mapping of the batch-query validator — data present maps
to valid with the parsed profile, data absent with a NOT_FOUND error on the
alias maps to deleted, data absent without one maps to an unexpected
protocol error. -/
theorem C5_gql_alias_mapping (usernames : List String)
    (data : String → Option GqlUserData) (errors : List GqlError) :
    ∃ rs : List ValidationResult,
      validateUsernamesGraphQL usernames (.ok data errors) = .ok rs ∧
      rs.length = usernames.length ∧
      ∀ (i : Nat) (u : String), usernames[i]? = some u →
        (∀ ud, data ("user" ++ toString i) = some ud →
          rs[i]? = some ⟨u, .valid, none, some ud.toProfile⟩) ∧
        (data ("user" ++ toString i) = none →
          hasNotFound errors ("user" ++ toString i) = true →
          rs[i]? = some ⟨u, .deleted, some "User not found or account deleted", none⟩) ∧
        (data ("user" ++ toString i) = none →
          hasNotFound errors ("user" ++ toString i) = false →
          rs[i]? = some ⟨u, .error, some "Unexpected GraphQL error", none⟩) := by
  refine ⟨_, rfl, by simp, ?_⟩
  intro i u hu
  have henum : usernames.enum[i]? = some (i, u) := by
    rw [List.getElem?_enum, hu]
    rfl
  have hrs : (usernames.enum.map (fun p => gqlResultFor data errors p.2 p.1))[i]? =
      some (gqlResultFor data errors u i) := by
    rw [List.getElem?_map, henum]
    rfl
  refine ⟨?_, ?_, ?_⟩
  · intro ud hd
    rw [hrs]
    simp [gqlResultFor, hd]
  · intro hd hnf
    rw [hrs]
    simp [gqlResultFor, hd, hnf]
  · intro hd hnf
    rw [hrs]
    simp [gqlResultFor, hd, hnf]

/-- C5 witness: one handle whose alias has no data but a NOT_FOUND error on
path user0 comes back deleted. -/
theorem C5_witness : ∃ rs : List ValidationResult,
    validateUsernamesGraphQL ["ghost"]
      (.ok (fun _ => none) [⟨["user0"], "NOT_FOUND"⟩]) = .ok rs ∧
    rs[0]? = some ⟨"ghost", .deleted, some "User not found or account deleted", none⟩ := by
  obtain ⟨rs, h1, _, h3⟩ :=
    C5_gql_alias_mapping ["ghost"] (fun _ => none) [⟨["user0"], "NOT_FOUND"⟩]
  exact ⟨rs, h1, (h3 0 "ghost" rfl).2.1 rfl (by decide)⟩

/-- C8 (amended): the plain endpoint's single-resource validator
distinguishes the two 403 cases by the body message, while the batch
endpoint's REST validator maps every 403 to the rate-limit message. -/
theorem C8_forbidden_handling :
    (∀ u m, validateGitHubUsername u (.forbidden (some m)) =
      ⟨u, .error,
        some (if containsSubstr m "rate limit" then "Rate limit exceeded - please wait"
          else "Access forbidden - may be private or suspended account"), none⟩) ∧
    (∀ u, validateGitHubUsername u (.forbidden none) =
      ⟨u, .error, some "Access forbidden - may be private or suspended account", none⟩) ∧
    (∀ u m, restValidate u (.forbidden m) =
      ⟨u, .error, some "Rate limit exceeded - please wait", none⟩) := by
  refine ⟨?_, fun u => rfl, fun u m => rfl⟩
  intro u m
  by_cases h : containsSubstr m "rate limit" <;> simp [validateGitHubUsername, h]

/-- C8 counterexample: in the batch endpoint's REST validator a 403 whose
body message does not indicate rate limiting still yields the rate-limit
message, not the access-forbidden one. -/
theorem C8_counterexample :
    restValidate "octocat" (.forbidden (some "Request forbidden by administrative rules")) =
      ⟨"octocat", .error, some "Rate limit exceeded - please wait", none⟩ ∧
    ¬ (restValidate "octocat"
        (.forbidden (some "Request forbidden by administrative rules"))).error =
      some "Access forbidden - may be private or suspended account" := by
  decide

/-- C9 (amended): in the single-resource engagement check a non-success or
faulted list call leaves its flag false without erroring the handle, and
even when both calls fault the result carries no error field — the faults
are swallowed per call, so the error-setting outer handler never fires. -/
theorem C9_flag_isolation (username targetOwner targetRepo : String)
    (starred : CallOut StarEntry) (forks : CallOut ForkEntry) :
    (checkUserEngagement username targetOwner targetRepo starred forks).error = none ∧
    ((∀ body, ¬ starred = .ok body) →
      (checkUserEngagement username targetOwner targetRepo starred forks).hasStarred = false) ∧
    ((∀ body, ¬ forks = .ok body) →
      (checkUserEngagement username targetOwner targetRepo starred forks).hasForked = false) := by
  refine ⟨rfl, ?_, ?_⟩
  · intro h
    cases starred with
    | ok body => exact absurd rfl (h body)
    | notOk => rfl
    | fault => rfl
  · intro h
    cases forks with
    | ok body => exact absurd rfl (h body)
    | notOk => rfl
    | fault => rfl

/-- C9 witness: a non-success starred call and a faulted fork call leave
both flags false and no error field. -/
theorem C9_witness :
    (checkUserEngagement "octocat" "vercel" "next.js" .notOk .fault).hasStarred = false ∧
    (checkUserEngagement "octocat" "vercel" "next.js" .notOk .fault).hasForked = false ∧
    (checkUserEngagement "octocat" "vercel" "next.js" .notOk .fault).error = none := by
  obtain ⟨he, hs, hf⟩ := C9_flag_isolation "octocat" "vercel" "next.js" .notOk .fault
  exact ⟨hs (fun _ h => CallOut.noConfusion h), hf (fun _ h => CallOut.noConfusion h), he⟩

/-- C9 counterexample: both calls fault, yet the result carries no error
field (the claim says it would), still reporting both flags false. -/
theorem C9_counterexample :
    checkUserEngagement "octocat" "vercel" "next.js" .fault .fault =
      ⟨"octocat", false, false, none⟩ := by
  rfl

/-- C1 (amended): a request whose handles all have fresh cache entries
performs no network calls, produces no new validation results, leaves the
cache unchanged and answers with exactly the stored results — but the rate
limiter is still consulted and advanced once for the request itself (the
check at `route.ts` line 265 runs before the cache is read), independently
of the handles, so the rate-limiter state is not left unchanged. -/
theorem C1_cache_hits (st : PostState) (now : Nat) (ip : String)
    (usernames : List String) (tok : Option String) (method : Method)
    (gql : Nat → GqlOutcome) (rest : String → RestOutcome)
    (wf : wfCache st.cache) (hne : ¬ usernames = []) (hlen : usernames.length ≤ 5000)
    (hall : ∀ u ∈ usernames, (getCachedResult st.cache now u).isSome = true)
    (hallow : (checkRateLimit st.rateMap now ip (tokenPresent tok)).allowed = true) :
    POSTbatch st now ip usernames tok method gql rest =
      ⟨.ok (usernames.map (fun u => getCachedResult st.cache now u))
          ⟨(checkRateLimit st.rateMap now ip (tokenPresent tok)).remaining,
            (checkRateLimit st.rateMap now ip (tokenPresent tok)).resetTime,
            if tokenPresent tok then 5000 else 60⟩
          ⟨usernames.length, 0, usernames.length⟩ "rest",
        ⟨st.cache, (checkRateLimit st.rateMap now ip (tokenPresent tok)).map⟩, 0, []⟩ := by
  have hlen0 : ¬ usernames.length = 0 := by
    simpa [List.length_eq_zero] using hne
  have huncached := partitionCache_allHit st.cache now usernames hall
  have hclen := partitionCache_allHit_length st.cache now usernames hall
  simp only [POSTbatch]
  rw [if_neg hlen0, if_neg (by omega), if_neg (by simp [hallow])]
  rw [huncached]
  have hrun : ∀ ug ht : Bool,
      runValidationPass st.cache now [] ug ht gql rest = ([], st.cache, 0) :=
    fun _ _ => rfl
  rw [hrun]
  have hmap : usernames.map (fun u =>
      ((partitionCache st.cache now usernames).1.find?
        (fun r => decide (r.username = u))).orElse
        (fun _ => (([], st.cache, 0) :
          List ValidationResult × Cache × Nat).1.find? (fun r => decide (r.username = u)))) =
      usernames.map (fun u => getCachedResult st.cache now u) := by
    apply List.map_congr_left
    intro u hu
    obtain ⟨r, hr⟩ := Option.isSome_iff_exists.mp (hall u hu)
    rw [partitionCache_hit_find st.cache now wf usernames u r hu hr, hr]
    rfl
  rw [hmap, hclen]
  rfl

/-- C1 witness: a one-handle request served entirely from a fresh cache
entry, with the quota check allowing it. -/
theorem C1_witness :
    POSTbatch ⟨[("octocat", ⟨⟨"octocat", .valid, none, none⟩, 0⟩)], [("ip", ⟨1, 2000000⟩)]⟩
        1000 "ip" ["octocat"] none .auto (fun _ => .fail) (fun _ => .notFound) =
      ⟨.ok [some ⟨"octocat", .valid, none, none⟩] ⟨58, 2000000, 60⟩ ⟨1, 0, 1⟩ "rest",
        ⟨[("octocat", ⟨⟨"octocat", .valid, none, none⟩, 0⟩)],
          [("ip", ⟨2, 2000000⟩), ("ip", ⟨1, 2000000⟩)]⟩, 0, []⟩ := by
  have h := C1_cache_hits
    ⟨[("octocat", ⟨⟨"octocat", .valid, none, none⟩, 0⟩)], [("ip", ⟨1, 2000000⟩)]⟩
    1000 "ip" ["octocat"] none .auto (fun _ => .fail) (fun _ => .notFound)
    (by unfold wfCache; decide) (by decide) (by decide) (by decide) (by decide)
  rw [h]
  decide

/-- C1 counterexample: a request whose single handle is a fresh cache hit
makes zero network calls, yet the rate-limiter map does change (the
per-request consumption), refuting "quota untouched". -/
theorem C1_counterexample :
    (∀ u ∈ ["octocat"],
      (getCachedResult [("octocat", ⟨⟨"octocat", .valid, none, none⟩, 0⟩)] 1000 u).isSome = true) ∧
    (POSTbatch ⟨[("octocat", ⟨⟨"octocat", .valid, none, none⟩, 0⟩)], [("ip", ⟨1, 2000000⟩)]⟩
        1000 "ip" ["octocat"] none .auto (fun _ => .fail) (fun _ => .notFound)).networkCalls = 0 ∧
    ¬ (POSTbatch ⟨[("octocat", ⟨⟨"octocat", .valid, none, none⟩, 0⟩)], [("ip", ⟨1, 2000000⟩)]⟩
        1000 "ip" ["octocat"] none .auto (fun _ => .fail) (fun _ => .notFound)).state.rateMap =
      [("ip", ⟨1, 2000000⟩)] := by
  decide

/-- C2 (amended): when any GraphQL chunk fails, the `catch` falls back to
REST over the ENTIRE uncached set — every cache-miss handle, including the
chunks already completed on GraphQL, is re-executed on the single-resource
path and the completed chunks' results are discarded (their cache writes
persist); the fallback is request-wide, not per chunk. -/
theorem C2_fallback_whole_request (st : PostState) (now : Nat) (ip : String)
    (usernames : List String) (tok : Option String) (method : Method)
    (gql : Nat → GqlOutcome) (rest : String → RestOutcome)
    (hne : ¬ usernames = []) (hlen : usernames.length ≤ 5000)
    (hallow : (checkRateLimit st.rateMap now ip (tokenPresent tok)).allowed = true)
    (hmiss : ¬ (partitionCache st.cache now usernames).2.isEmpty = true)
    (hchoose : chooseGraphQL method tok (partitionCache st.cache now usernames).2.length = true)
    (htok : tokenPresent tok = true)
    (hfail : (runGraphQLBatches gql now
        (chunkList 100 (partitionCache st.cache now usernames).2) 0 [] st.cache 0).1 = none) :
    (POSTbatch st now ip usernames tok method gql rest).validatedResults =
      (partitionCache st.cache now usernames).2.map (fun u => restValidate u (rest u)) ∧
    (POSTbatch st now ip usernames tok method gql rest).networkCalls =
      (runGraphQLBatches gql now
        (chunkList 100 (partitionCache st.cache now usernames).2) 0 [] st.cache 0).2.2 +
        (partitionCache st.cache now usernames).2.length := by
  have hlen0 : ¬ usernames.length = 0 := by
    simpa [List.length_eq_zero] using hne
  have hb : (!(partitionCache st.cache now usernames).2.isEmpty &&
      chooseGraphQL method tok (partitionCache st.cache now usernames).2.length) = true := by
    rw [Bool.and_eq_true, hchoose]
    exact ⟨by simp [Bool.not_eq_true'] at hmiss ⊢; exact hmiss, rfl⟩
  have hrun : runValidationPass st.cache now (partitionCache st.cache now usernames).2
      (!(partitionCache st.cache now usernames).2.isEmpty &&
        chooseGraphQL method tok (partitionCache st.cache now usernames).2.length)
      (tokenPresent tok) gql rest =
      (validateUsernamesREST (partitionCache st.cache now usernames).2 rest,
        applyWrites (runGraphQLBatches gql now
            (chunkList 100 (partitionCache st.cache now usernames).2) 0 [] st.cache 0).2.1
          (validateUsernamesREST (partitionCache st.cache now usernames).2 rest) now,
        (runGraphQLBatches gql now
            (chunkList 100 (partitionCache st.cache now usernames).2) 0 [] st.cache 0).2.2 +
          (partitionCache st.cache now usernames).2.length) := by
    unfold runValidationPass
    rw [if_neg hmiss, if_pos (by rw [hb, htok]; rfl), hfail]
  simp only [POSTbatch]
  rw [if_neg hlen0, if_neg (by omega), if_neg (by simp [hallow])]
  rw [hrun, validateUsernamesREST_eq_map]
  exact ⟨rfl, rfl⟩

/-- C2 witness: one cache miss, explicit graphql method, the single chunk
fails; the whole uncached set (here that one handle) is served by REST with
one failed GraphQL call plus one REST call. -/
theorem C2_witness :
    (POSTbatch ⟨[], []⟩ 0 "ip" ["torvalds"] (some "tok") .graphql
        (fun _ => .fail) (fun _ => .notFound)).validatedResults =
      (partitionCache [] 0 ["torvalds"]).2.map
        (fun u => restValidate u ((fun _ => RestOutcome.notFound) u)) ∧
    (POSTbatch ⟨[], []⟩ 0 "ip" ["torvalds"] (some "tok") .graphql
        (fun _ => .fail) (fun _ => .notFound)).networkCalls =
      (runGraphQLBatches (fun _ => .fail) 0 (chunkList 100 (partitionCache [] 0 ["torvalds"]).2)
        0 [] [] 0).2.2 + (partitionCache [] 0 ["torvalds"]).2.length := by
  exact C2_fallback_whole_request ⟨[], []⟩ 0 "ip" ["torvalds"] (some "tok") .graphql
    (fun _ => .fail) (fun _ => .notFound)
    (by decide) (by decide) (by decide) (by decide) (by decide) (by decide) (by decide)

/-- C2 counterexample: 101 cache misses split into two chunks; chunk 0
(u0..u99) succeeds on GraphQL, chunk 1 fails.  The claim predicts only
chunk 1 falls back (3 network calls, chunk-0 handles keeping their GraphQL
results), but the code issues 2 GraphQL + 101 REST calls and u0's produced
result is the REST one (deleted), showing chunk 0 was re-executed. -/
theorem C2_counterexample :
    (POSTbatch ⟨[], []⟩ 0 "ip" ((List.range 101).map (fun i => "u" ++ toString i)) (some "tok")
        .graphql (fun i => if i = 0 then .ok (fun _ => some ⟨none, none, 1, 2, 3, "t"⟩) [] else .fail)
        (fun _ => .notFound)).networkCalls = 103 ∧
    (POSTbatch ⟨[], []⟩ 0 "ip" ((List.range 101).map (fun i => "u" ++ toString i)) (some "tok")
        .graphql (fun i => if i = 0 then .ok (fun _ => some ⟨none, none, 1, 2, 3, "t"⟩) [] else .fail)
        (fun _ => .notFound)).validatedResults.head? =
      some ⟨"u0", .deleted, some "User not found or account deleted", none⟩ := by
  decide

/-- C10: every result a validation pass produces — error results included,
since the statement puts no constraint on the status — is written to the
cache under its username, so a lookup within the freshness window returns
the stored result (the most recent write for that handle) instead of
requiring a re-query. -/
theorem C10_results_cached (st : PostState) (now : Nat) (ip : String)
    (usernames : List String) (tok : Option String) (method : Method)
    (gql : Nat → GqlOutcome) (rest : String → RestOutcome)
    (d : Nat) (hd : d < CACHE_DURATION) (u : String) (r : ValidationResult)
    (hlast : (POSTbatch st now ip usernames tok method gql rest).validatedResults.reverse.find?
        (fun x => decide (x.username = u)) = some r) :
    getCachedResult (POSTbatch st now ip usernames tok method gql rest).state.cache
      (now + d) u = some r := by
  by_cases h0 : usernames.length = 0
  · exfalso
    simp only [POSTbatch] at hlast
    rw [if_pos h0] at hlast
    simp at hlast
  · by_cases h1 : usernames.length > 5000
    · exfalso
      simp only [POSTbatch] at hlast
      rw [if_neg h0, if_pos h1] at hlast
      simp at hlast
    · by_cases h2 : (checkRateLimit st.rateMap now ip (tokenPresent tok)).allowed = true
      · simp only [POSTbatch] at hlast ⊢
        rw [if_neg h0, if_neg h1, if_neg (by simp [h2])] at hlast ⊢
        replace hlast : (runValidationPass st.cache now (partitionCache st.cache now usernames).2
            (!(partitionCache st.cache now usernames).2.isEmpty &&
              chooseGraphQL method tok (partitionCache st.cache now usernames).2.length)
            (tokenPresent tok) gql rest).1.reverse.find?
            (fun x => decide (x.username = u)) = some r := hlast
        have hget := runValidationPass_cache st.cache now
          (partitionCache st.cache now usernames).2
          (!(partitionCache st.cache now usernames).2.isEmpty &&
            chooseGraphQL method tok (partitionCache st.cache now usernames).2.length)
          (tokenPresent tok) gql rest u r hlast
        show getCachedResult (runValidationPass st.cache now
          (partitionCache st.cache now usernames).2
          (!(partitionCache st.cache now usernames).2.isEmpty &&
            chooseGraphQL method tok (partitionCache st.cache now usernames).2.length)
          (tokenPresent tok) gql rest).2.1 (now + d) u = some r
        unfold getCachedResult
        rw [hget]
        show (if now + d - ((⟨r, now⟩ : CacheEntry)).timestamp < CACHE_DURATION
          then some r else none) = some r
        rw [if_pos (by show now + d - now < CACHE_DURATION; omega)]
      · exfalso
        simp only [POSTbatch] at hlast
        rw [if_neg h0, if_neg h1, if_pos h2] at hlast
        simp at hlast

/-- C10 witness: a transport fault produces an error result, which is
nevertheless cached and served from the cache one minute later. -/
theorem C10_witness :
    getCachedResult (POSTbatch ⟨[], []⟩ 0 "ip" ["badguy"] none .auto (fun _ => .fail)
        (fun _ => .fault (some "network down"))).state.cache (0 + 60000) "badguy" =
      some ⟨"badguy", .error, some "network down", none⟩ := by
  exact C10_results_cached ⟨[], []⟩ 0 "ip" ["badguy"] none .auto (fun _ => .fail)
    (fun _ => .fault (some "network down")) 60000 (by decide) "badguy"
    ⟨"badguy", .error, some "network down", none⟩ (by decide)

/-- C3: a successful batch request returns exactly one result per submitted
handle (same length as the input, no omissions), with the result at each
position carrying the handle at the same position — over every cache state,
every strategy and every chunk outcome, including runs in which the
batch-query protocol throws and the REST fallback serves the handles. -/
theorem C3_completeness_order (st : PostState) (now : Nat) (ip : String)
    (usernames : List String) (tok : Option String) (method : Method)
    (gql : Nat → GqlOutcome) (rest : String → RestOutcome)
    (wf : wfCache st.cache) (hne : ¬ usernames = []) (hlen : usernames.length ≤ 5000)
    (hallow : (checkRateLimit st.rateMap now ip (tokenPresent tok)).allowed = true) :
    ∃ (rs : List (Option ValidationResult)) (rl : RateInfo) (cs : CacheStats) (m : String),
      (POSTbatch st now ip usernames tok method gql rest).response = .ok rs rl cs m ∧
      rs.length = usernames.length ∧
      ∀ (i : Nat) (u : String), usernames[i]? = some u →
        ∃ r : ValidationResult, rs[i]? = some (some r) ∧ r.username = u := by
  have hlen0 : ¬ usernames.length = 0 := by
    simpa [List.length_eq_zero] using hne
  simp only [POSTbatch]
  rw [if_neg hlen0, if_neg (by omega), if_neg (by simp [hallow])]
  refine ⟨_, _, _, _, rfl, by simp, ?_⟩
  intro i u hu
  have humem : u ∈ usernames := List.getElem?_mem hu
  rw [List.getElem?_map, hu, Option.map_some']
  cases hc : getCachedResult st.cache now u with
  | some rc =>
    have hfind := partitionCache_hit_find st.cache now wf usernames u rc humem hc
    refine ⟨rc, ?_, getCachedResult_username wf hc⟩
    rw [hfind]
    rfl
  | none =>
    have hmem2 := partitionCache_miss_mem st.cache now usernames u humem hc
    have hcover : u ∈ (runValidationPass st.cache now (partitionCache st.cache now usernames).2
        (!(partitionCache st.cache now usernames).2.isEmpty &&
          chooseGraphQL method tok (partitionCache st.cache now usernames).2.length)
        (tokenPresent tok) gql rest).1.map (·.username) := by
      rw [runValidationPass_usernames]
      exact hmem2
    obtain ⟨r, hr⟩ := Option.isSome_iff_exists.mp (find_username_isSome _ u hcover)
    have hru : r.username = u := by simpa using List.find?_some hr
    cases hcf : (partitionCache st.cache now usernames).1.find?
        (fun x => decide (x.username = u)) with
    | some rc2 =>
      exact ⟨rc2, rfl, by simpa using List.find?_some hcf⟩
    | none =>
      exact ⟨r, by simp [Option.orElse, hr], hru⟩

/-- C3 witness: two fresh handles, no token, REST path; each position gets
the result for its own handle. -/
theorem C3_witness :
    ∃ (rs : List (Option ValidationResult)) (rl : RateInfo) (cs : CacheStats) (m : String),
      (POSTbatch ⟨[], []⟩ 0 "ip" ["alice", "bob"] none .auto (fun _ => .fail)
        (fun _ => .notFound)).response = .ok rs rl cs m ∧
      rs.length = ["alice", "bob"].length ∧
      ∀ (i : Nat) (u : String), ["alice", "bob"][i]? = some u →
        ∃ r : ValidationResult, rs[i]? = some (some r) ∧ r.username = u := by
  exact C3_completeness_order ⟨[], []⟩ 0 "ip" ["alice", "bob"] none .auto (fun _ => .fail)
    (fun _ => .notFound) (by unfold wfCache; decide) (by decide) (by decide) (by decide)

/-! ## Machinery for the duplicate-detection claims -/

theorem preservesUser_refl (a : ProcessedUser) : preservesUser a a :=
  ⟨rfl, rfl, fun h => h⟩

theorem preservesUser_trans {a b c : ProcessedUser}
    (h1 : preservesUser a b) (h2 : preservesUser b c) : preservesUser a c :=
  ⟨h2.1.trans h1.1, h2.2.1.trans h1.2.1, fun h => h2.2.2 (h1.2.2 h)⟩

theorem retagDuplicate_preserves (f : Nat) (a : ProcessedUser) :
    preservesUser a (retagDuplicate f a) := by
  unfold retagDuplicate
  split
  · rename_i h
    have hp : a.status = .pending := by
      have := (Bool.and_eq_true _ _).mp h
      simpa using this.2
    exact ⟨rfl, rfl, fun _ => rfl⟩
  · exact preservesUser_refl a

theorem retagDuplicate_pendOrDup (f : Nat) (a : ProcessedUser)
    (h : a.status = .pending ∨ a.status = .duplicate) :
    (retagDuplicate f a).status = .pending ∨ (retagDuplicate f a).status = .duplicate := by
  unfold retagDuplicate
  split
  · exact Or.inr rfl
  · exact h

theorem retagDuplicate_username (f : Nat) (a : ProcessedUser) :
    (retagDuplicate f a).username = a.username :=
  (retagDuplicate_preserves f a).1

theorem retagDuplicate_index (f : Nat) (a : ProcessedUser) :
    (retagDuplicate f a).index = a.index :=
  (retagDuplicate_preserves f a).2.1

/-- A retagged record is pending only where the original was pending. -/
theorem retagDuplicate_pending (f : Nat) (a : ProcessedUser)
    (h : (retagDuplicate f a).status = .pending) : a.status = .pending := by
  unfold retagDuplicate at h
  split at h
  · cases h
  · exact h

/-- Retagging the first occurrence: at the record whose index is the found
first index, a pending status becomes duplicate. -/
theorem retagDuplicate_hits (f : Nat) (a : ProcessedUser)
    (hidx : a.index = f) (h : a.status = .pending ∨ a.status = .duplicate) :
    (retagDuplicate f a).status = .duplicate := by
  unfold retagDuplicate
  rcases h with hp | hd
  · rw [if_pos (by simp [hidx, hp])]
  · split
    · rfl
    · exact hd

/-- Step equation: an invalid row appends an invalid record. -/
theorem processRows_cons_none (extract : String → Option String)
    (row : String) (rest : List String) (idx : Nat) (users : List ProcessedUser)
    (seen : List (String × Nat)) (hx : extract row = none) :
    processRows extract (row :: rest) idx users seen =
      processRows extract rest (idx + 1)
        (users ++ [⟨row, none, .invalid, some "Invalid username format or not found", idx, none⟩])
        seen := by
  simp only [processRows, hx]

/-- Step equation: a row whose lowercased username was already seen appends
a duplicate record and retro-flags the first occurrence. -/
theorem processRows_cons_dup (extract : String → Option String)
    (row : String) (rest : List String) (idx : Nat) (users : List ProcessedUser)
    (seen : List (String × Nat)) (uname : String) (f : Nat)
    (hx : extract row = some uname) (hs : mapGet seen (jsToLower uname) = some f) :
    processRows extract (row :: rest) idx users seen =
      processRows extract rest (idx + 1)
        ((users.map (retagDuplicate f)) ++
          [⟨row, some uname, .duplicate, some "Duplicate username found", idx, none⟩])
        seen := by
  simp only [processRows, hx, hs]

/-- Step equation: a first occurrence appends a pending record and records
its index under the lowercased username. -/
theorem processRows_cons_new (extract : String → Option String)
    (row : String) (rest : List String) (idx : Nat) (users : List ProcessedUser)
    (seen : List (String × Nat)) (uname : String)
    (hx : extract row = some uname) (hs : mapGet seen (jsToLower uname) = none) :
    processRows extract (row :: rest) idx users seen =
      processRows extract rest (idx + 1)
        (users ++ [⟨row, some uname, .pending, none, idx, none⟩])
        (mapSet seen (jsToLower uname) idx) := by
  simp only [processRows, hx, hs]

theorem processRows_length (extract : String → Option String) :
    ∀ (rest : List String) (idx : Nat) (users : List ProcessedUser)
      (seen : List (String × Nat)),
      (processRows extract rest idx users seen).length = users.length + rest.length := by
  intro rest
  induction rest with
  | nil => intro idx users seen; simp [processRows]
  | cons row rest ih =>
    intro idx users seen
    cases hx : extract row with
    | none =>
      rw [processRows_cons_none extract row rest idx users seen hx, ih]
      simp
      omega
    | some uname =>
      cases hs : mapGet seen (jsToLower uname) with
      | some f =>
        rw [processRows_cons_dup extract row rest idx users seen uname f hx hs, ih]
        simp
        omega
      | none =>
        rw [processRows_cons_new extract row rest idx users seen uname hx hs, ih]
        simp
        omega

/-- Stability: any record already built survives the rest of the loop with
its username and index intact, and its duplicate status permanent. -/
theorem processRows_preserves (extract : String → Option String) :
    ∀ (rest : List String) (idx : Nat) (users : List ProcessedUser)
      (seen : List (String × Nat)) (p : Nat) (hp : p < users.length),
      ∃ hq : p < (processRows extract rest idx users seen).length,
        preservesUser (users.get ⟨p, hp⟩)
          ((processRows extract rest idx users seen).get ⟨p, hq⟩) := by
  intro rest
  induction rest with
  | nil =>
    intro idx users seen p hp
    exact ⟨hp, preservesUser_refl _⟩
  | cons row rest ih =>
    intro idx users seen p hp
    cases hx : extract row with
    | none =>
      rw [processRows_cons_none extract row rest idx users seen hx]
      have hp2 : p < (users ++ [(⟨row, none, .invalid,
          some "Invalid username format or not found", idx, none⟩ : ProcessedUser)]).length := by
        simp
        omega
      obtain ⟨hq, hpres⟩ := ih (idx + 1) _ seen p hp2
      refine ⟨hq, ?_⟩
      have : (users ++ [(⟨row, none, .invalid,
          some "Invalid username format or not found", idx, none⟩ : ProcessedUser)]).get ⟨p, hp2⟩ =
          users.get ⟨p, hp⟩ := by
        simp [List.getElem_append_left hp]
      rw [this] at hpres
      exact hpres
    | some uname =>
      cases hs : mapGet seen (jsToLower uname) with
      | some f =>
        rw [processRows_cons_dup extract row rest idx users seen uname f hx hs]
        have hpm : p < (users.map (retagDuplicate f)).length := by
          simpa using hp
        have hp2 : p < ((users.map (retagDuplicate f)) ++ [(⟨row, some uname, .duplicate,
            some "Duplicate username found", idx, none⟩ : ProcessedUser)]).length := by
          simp
          omega
        obtain ⟨hq, hpres⟩ := ih (idx + 1) _ seen p hp2
        refine ⟨hq, ?_⟩
        have heq : ((users.map (retagDuplicate f)) ++ [(⟨row, some uname, .duplicate,
            some "Duplicate username found", idx, none⟩ : ProcessedUser)]).get ⟨p, hp2⟩ =
            retagDuplicate f (users.get ⟨p, hp⟩) := by
          simp [List.getElem_append_left hpm]
        rw [heq] at hpres
        exact preservesUser_trans (retagDuplicate_preserves f _) hpres
      | none =>
        rw [processRows_cons_new extract row rest idx users seen uname hx hs]
        have hp2 : p < (users ++ [(⟨row, some uname, .pending, none, idx, none⟩ : ProcessedUser)]).length := by
          simp
          omega
        obtain ⟨hq, hpres⟩ := ih (idx + 1) _ (mapSet seen (jsToLower uname) idx) p hp2
        refine ⟨hq, ?_⟩
        have : (users ++ [(⟨row, some uname, .pending, none, idx, none⟩ : ProcessedUser)]).get ⟨p, hp2⟩ =
            users.get ⟨p, hp⟩ := by
          simp [List.getElem_append_left hp]
        rw [this] at hpres
        exact hpres

theorem PUInv.nil : PUInv [] [] := by
  refine ⟨?_, ?_, ?_⟩
  · intro p pu h
    simp at h
  · intro l f h
    simp [mapGet] at h
  · intro p pu u h
    simp at h

/-- Helper: indexing into a one-element append. -/
theorem getElem?_append_one {l : List ProcessedUser} {x pu : ProcessedUser} {p : Nat}
    (h : (l ++ [x])[p]? = some pu) :
    (p < l.length ∧ l[p]? = some pu) ∨ (p = l.length ∧ pu = x) := by
  by_cases hlt : p < l.length
  · rw [List.getElem?_append_left hlt] at h
    exact Or.inl ⟨hlt, h⟩
  · rw [List.getElem?_append_right (Nat.le_of_not_lt hlt)] at h
    cases hd : p - l.length with
    | zero =>
      rw [hd] at h
      simp at h
      exact Or.inr ⟨by omega, h.symm⟩
    | succ m =>
      rw [hd] at h
      simp at h

theorem PUInv.step_invalid {users : List ProcessedUser} {seen : List (String × Nat)}
    (inv : PUInv users seen) (row : String) :
    PUInv (users ++ [(⟨row, none, .invalid,
        some "Invalid username format or not found", users.length, none⟩ : ProcessedUser)])
      seen := by
  refine ⟨?_, ?_, ?_⟩
  · intro p pu h
    rcases getElem?_append_one h with ⟨_, h2⟩ | ⟨hp, hx⟩
    · exact inv.idx_eq p pu h2
    · rw [hx, hp]
  · intro l f h
    obtain ⟨pu, hpu, u, hu⟩ := inv.seen_user l f h
    have hf : f < users.length := (List.getElem?_eq_some.mp hpu).1
    exact ⟨pu, by rw [List.getElem?_append_left hf]; exact hpu, u, hu⟩
  · intro p pu u h hu hst
    rcases getElem?_append_one h with ⟨_, h2⟩ | ⟨_, hx⟩
    · exact inv.pending_first p pu u h2 hu hst
    · rw [hx] at hst
      cases hst

theorem PUInv.step_dup {users : List ProcessedUser} {seen : List (String × Nat)}
    (inv : PUInv users seen) (row uname : String) (f : Nat)
    (hs : mapGet seen (jsToLower uname) = some f) :
    PUInv ((users.map (retagDuplicate f)) ++ [(⟨row, some uname, .duplicate,
        some "Duplicate username found", users.length, none⟩ : ProcessedUser)]) seen := by
  have hmlen : (users.map (retagDuplicate f)).length = users.length := by simp
  refine ⟨?_, ?_, ?_⟩
  · intro p pu h
    rcases getElem?_append_one h with ⟨hp, h2⟩ | ⟨hp, hx⟩
    · rw [List.getElem?_map] at h2
      cases hpu : users[p]? with
      | none => rw [hpu] at h2; simp at h2
      | some pu0 =>
        rw [hpu] at h2
        simp at h2
        rw [← h2, retagDuplicate_index]
        exact inv.idx_eq p pu0 hpu
    · rw [hx, hp, hmlen]
  · intro l f2 h
    obtain ⟨pu, hpu, u, hu1, hu2, hu3⟩ := inv.seen_user l f2 h
    have hf : f2 < users.length := (List.getElem?_eq_some.mp hpu).1
    refine ⟨retagDuplicate f pu, ?_, u, ?_, hu2, ?_⟩
    · rw [List.getElem?_append_left (by rw [hmlen]; exact hf), List.getElem?_map, hpu]
      rfl
    · rw [retagDuplicate_username]
      exact hu1
    · exact retagDuplicate_pendOrDup f pu hu3
  · intro p pu u h hu hst
    rcases getElem?_append_one h with ⟨hp, h2⟩ | ⟨_, hx⟩
    · rw [List.getElem?_map] at h2
      cases hpu : users[p]? with
      | none => rw [hpu] at h2; simp at h2
      | some pu0 =>
        rw [hpu] at h2
        simp at h2
        rw [← h2] at hu hst
        exact inv.pending_first p pu0 u hpu
          (by rw [← retagDuplicate_username f pu0]; exact hu)
          (retagDuplicate_pending f pu0 hst)
    · rw [hx] at hst
      cases hst

theorem PUInv.step_new {users : List ProcessedUser} {seen : List (String × Nat)}
    (inv : PUInv users seen) (row uname : String)
    (hs : mapGet seen (jsToLower uname) = none) :
    PUInv (users ++ [(⟨row, some uname, .pending, none, users.length, none⟩ : ProcessedUser)])
      (mapSet seen (jsToLower uname) users.length) := by
  refine ⟨?_, ?_, ?_⟩
  · intro p pu h
    rcases getElem?_append_one h with ⟨_, h2⟩ | ⟨hp, hx⟩
    · exact inv.idx_eq p pu h2
    · rw [hx, hp]
  · intro l f h
    rw [mapGet_mapSet] at h
    by_cases hl : jsToLower uname = l
    · rw [if_pos hl] at h
      refine ⟨⟨row, some uname, .pending, none, users.length, none⟩, ?_, uname, rfl, hl, Or.inl rfl⟩
      have : f = users.length := by simpa using h.symm
      rw [this]
      exact List.getElem?_concat_length users _
    · rw [if_neg hl] at h
      obtain ⟨pu, hpu, u, hu⟩ := inv.seen_user l f h
      have hf : f < users.length := (List.getElem?_eq_some.mp hpu).1
      exact ⟨pu, by rw [List.getElem?_append_left hf]; exact hpu, u, hu⟩
  · intro p pu u h hu hst
    rw [mapGet_mapSet]
    rcases getElem?_append_one h with ⟨_, h2⟩ | ⟨hp, hx⟩
    · have hold := inv.pending_first p pu u h2 hu hst
      by_cases hl : jsToLower uname = jsToLower u
      · rw [hl] at hs
        rw [hs] at hold
        cases hold
      · rw [if_neg hl]
        exact hold
    · rw [hx] at hu
      have huname : uname = u := by simpa using hu
      rw [if_pos (by rw [huname]), hp]

/-- Retro-flagging: a pending-or-duplicate record whose username has a
case-insensitive match in the remaining rows ends up `duplicate`. -/
theorem processRows_retro (extract : String → Option String) :
    ∀ (rest : List String) (idx : Nat) (users : List ProcessedUser)
      (seen : List (String × Nat)), PUInv users seen → idx = users.length →
      ∀ (p : Nat) (pu : ProcessedUser) (u : String),
      users[p]? = some pu → pu.username = some u →
      (pu.status = .pending ∨ pu.status = .duplicate) →
      (∃ (j : Nat) (rowj b : String), rest[j]? = some rowj ∧ extract rowj = some b ∧
        jsToLower b = jsToLower u) →
      ∃ hq : p < (processRows extract rest idx users seen).length,
        ((processRows extract rest idx users seen).get ⟨p, hq⟩).status = .duplicate := by
  intro rest
  induction rest with
  | nil =>
    intro idx users seen _ _ p pu u _ _ _ hw
    obtain ⟨j, rowj, b, hj, _, _⟩ := hw
    simp at hj
  | cons row rest ih =>
    intro idx users seen inv hidx p pu u hp hu hst hw
    have hplt : p < users.length := (List.getElem?_eq_some.mp hp).1
    cases hx : extract row with
    | none =>
      rw [processRows_cons_none extract row rest idx users seen hx]
      subst hidx
      refine ih (users.length + 1) _ seen (inv.step_invalid row) (by simp) p pu u ?_ hu hst ?_
      · rw [List.getElem?_append_left hplt]
        exact hp
      · obtain ⟨j, rowj, b, hj, hbx, hbl⟩ := hw
        cases j with
        | zero =>
          exfalso
          have hrr : rowj = row := (by simpa using hj : row = rowj).symm
          rw [hrr, hx] at hbx
          cases hbx
        | succ m =>
          exact ⟨m, rowj, b, by simpa using hj, hbx, hbl⟩
    | some uname =>
      cases hs : mapGet seen (jsToLower uname) with
      | some f =>
        rw [processRows_cons_dup extract row rest idx users seen uname f hx hs]
        subst hidx
        have hplt2 : p < ((users.map (retagDuplicate f)) ++ [(⟨row, some uname, .duplicate,
            some "Duplicate username found", users.length, none⟩ : ProcessedUser)]).length := by
          simp
          omega
        have hval2 : ((users.map (retagDuplicate f)) ++ [(⟨row, some uname, .duplicate,
            some "Duplicate username found", users.length, none⟩ : ProcessedUser)])[p]? =
            some (retagDuplicate f pu) := by
          rw [List.getElem?_append_left (by simpa using hplt), List.getElem?_map, hp]
          rfl
        by_cases heq : jsToLower uname = jsToLower u
        · -- the current row is a case-insensitive duplicate of u:
          -- the record at p is retro-flagged now (or already was a duplicate)
          have hdup : (retagDuplicate f pu).status = .duplicate := by
            rcases hst with hpend | hdup
            · have hfirst := inv.pending_first p pu u hp hu hpend
              rw [← heq, hs] at hfirst
              have hf : f = p := by simpa using hfirst
              exact retagDuplicate_hits f pu (by rw [inv.idx_eq p pu hp, hf]) (Or.inl hpend)
            · exact (retagDuplicate_preserves f pu).2.2 hdup
          obtain ⟨hq, hpres⟩ := processRows_preserves extract rest (users.length + 1) _ seen p hplt2
          refine ⟨hq, ?_⟩
          have hgv : ((users.map (retagDuplicate f)) ++ [(⟨row, some uname, .duplicate,
              some "Duplicate username found", users.length, none⟩ : ProcessedUser)]).get
              ⟨p, hplt2⟩ = retagDuplicate f pu := by
            have := List.getElem?_eq_getElem hplt2
            rw [hval2] at this
            simpa using this.symm
          rw [hgv] at hpres
          exact hpres.2.2 hdup
        · refine ih (users.length + 1) _ seen (inv.step_dup row uname f hs) (by simp)
            p (retagDuplicate f pu) u hval2 ?_ (retagDuplicate_pendOrDup f pu hst) ?_
          · rw [retagDuplicate_username]
            exact hu
          · obtain ⟨j, rowj, b, hj, hbx, hbl⟩ := hw
            cases j with
            | zero =>
              exfalso
              have hrr : rowj = row := (by simpa using hj : row = rowj).symm
              rw [hrr, hx] at hbx
              have : uname = b := by simpa using hbx
              rw [this] at heq
              exact heq hbl
            | succ m =>
              exact ⟨m, rowj, b, by simpa using hj, hbx, hbl⟩
      | none =>
        rw [processRows_cons_new extract row rest idx users seen uname hx hs]
        subst hidx
        have hplt2 : p < (users ++ [(⟨row, some uname, .pending, none, users.length,
            none⟩ : ProcessedUser)]).length := by
          simp
          omega
        have hval2 : (users ++ [(⟨row, some uname, .pending, none, users.length,
            none⟩ : ProcessedUser)])[p]? = some pu := by
          rw [List.getElem?_append_left hplt]
          exact hp
        by_cases heq : jsToLower uname = jsToLower u
        · rcases hst with hpend | hdup
          · exfalso
            have hfirst := inv.pending_first p pu u hp hu hpend
            rw [← heq, hs] at hfirst
            cases hfirst
          · obtain ⟨hq, hpres⟩ := processRows_preserves extract rest (users.length + 1) _
              (mapSet seen (jsToLower uname) users.length) p hplt2
            refine ⟨hq, ?_⟩
            have hgv : (users ++ [(⟨row, some uname, .pending, none, users.length,
                none⟩ : ProcessedUser)]).get ⟨p, hplt2⟩ = pu := by
              have := List.getElem?_eq_getElem hplt2
              rw [hval2] at this
              simpa using this.symm
            rw [hgv] at hpres
            exact hpres.2.2 hdup
        · refine ih (users.length + 1) _ _ (inv.step_new row uname hs) (by simp)
            p pu u hval2 hu hst ?_
          obtain ⟨j, rowj, b, hj, hbx, hbl⟩ := hw
          cases j with
          | zero =>
            exfalso
            have hrr : rowj = row := (by simpa using hj : row = rowj).symm
            rw [hrr, hx] at hbx
            have : uname = b := by simpa using hbx
            rw [this] at heq
            exact heq hbl
          | succ m =>
            exact ⟨m, rowj, b, by simpa using hj, hbx, hbl⟩

/-- A row whose lowercased username is already seen, or has an earlier
case-insensitive partner among the remaining rows, ends up `duplicate`. -/
theorem processRows_later (extract : String → Option String) :
    ∀ (rest : List String) (idx : Nat) (users : List ProcessedUser)
      (seen : List (String × Nat)) (j : Nat) (rowj b : String),
      rest[j]? = some rowj → extract rowj = some b →
      ((mapGet seen (jsToLower b)).isSome = true ∨
        ∃ (i : Nat) (rowi a : String), i < j ∧ rest[i]? = some rowi ∧
          extract rowi = some a ∧ jsToLower a = jsToLower b) →
      ∃ hq : users.length + j < (processRows extract rest idx users seen).length,
        ((processRows extract rest idx users seen).get
          ⟨users.length + j, hq⟩).status = .duplicate := by
  intro rest
  induction rest with
  | nil =>
    intro idx users seen j rowj b hj
    simp at hj
  | cons row rest ih =>
    intro idx users seen j rowj b hj hbx hdisj
    cases j with
    | zero =>
      have hrr : rowj = row := (by simpa using hj : row = rowj).symm
      rw [hrr] at hbx
      rcases hdisj with hleft | ⟨i, _, _, hilt, _⟩
      · obtain ⟨f, hf⟩ := Option.isSome_iff_exists.mp hleft
        rw [processRows_cons_dup extract row rest idx users seen b f hbx hf]
        have hlen2 : users.length < ((users.map (retagDuplicate f)) ++ [(⟨row, some b,
            .duplicate, some "Duplicate username found", idx, none⟩ : ProcessedUser)]).length := by
          simp
        obtain ⟨hq, hpres⟩ := processRows_preserves extract rest (idx + 1) _ seen
          users.length hlen2
        refine ⟨hq, ?_⟩
        have hval : ((users.map (retagDuplicate f)) ++ [(⟨row, some b, .duplicate,
            some "Duplicate username found", idx, none⟩ : ProcessedUser)]).get
            ⟨users.length, hlen2⟩ = ⟨row, some b, .duplicate,
            some "Duplicate username found", idx, none⟩ := by
          have h1 : ((users.map (retagDuplicate f)) ++ [(⟨row, some b, .duplicate,
              some "Duplicate username found", idx, none⟩ : ProcessedUser)])[users.length]? =
              some ⟨row, some b, .duplicate, some "Duplicate username found", idx, none⟩ := by
            have := List.getElem?_concat_length (users.map (retagDuplicate f))
              (⟨row, some b, .duplicate, some "Duplicate username found", idx,
                none⟩ : ProcessedUser)
            simpa using this
          have h2 := List.getElem?_eq_getElem hlen2
          rw [h1] at h2
          simpa using h2.symm
        rw [hval] at hpres
        exact hpres.2.2 rfl
      · omega
    | succ m =>
      cases hx : extract row with
      | none =>
        rw [processRows_cons_none extract row rest idx users seen hx]
        have hdisj2 : (mapGet seen (jsToLower b)).isSome = true ∨
            ∃ (i : Nat) (rowi a : String), i < m ∧ rest[i]? = some rowi ∧
              extract rowi = some a ∧ jsToLower a = jsToLower b := by
          rcases hdisj with hleft | ⟨i, rowi, a, hilt, hri, hra, hal⟩
          · exact Or.inl hleft
          · cases i with
            | zero =>
              exfalso
              have hrr : rowi = row := (by simpa using hri : row = rowi).symm
              rw [hrr, hx] at hra
              cases hra
            | succ i2 =>
              exact Or.inr ⟨i2, rowi, a, by omega, by simpa using hri, hra, hal⟩
        obtain ⟨hq, hres⟩ := ih (idx + 1) _ seen m rowj b (by simpa using hj) hbx hdisj2
        have harith : (users ++ [(⟨row, none, .invalid,
            some "Invalid username format or not found", idx, none⟩ : ProcessedUser)]).length + m =
            users.length + (m + 1) := by
          simp
          omega
        exact harith ▸ ⟨hq, hres⟩
      | some uname =>
        cases hs : mapGet seen (jsToLower uname) with
        | some f =>
          rw [processRows_cons_dup extract row rest idx users seen uname f hx hs]
          have hdisj2 : (mapGet seen (jsToLower b)).isSome = true ∨
              ∃ (i : Nat) (rowi a : String), i < m ∧ rest[i]? = some rowi ∧
                extract rowi = some a ∧ jsToLower a = jsToLower b := by
            rcases hdisj with hleft | ⟨i, rowi, a, hilt, hri, hra, hal⟩
            · exact Or.inl hleft
            · cases i with
              | zero =>
                have hrr : rowi = row := (by simpa using hri : row = rowi).symm
                rw [hrr, hx] at hra
                have ha2 : uname = a := by simpa using hra
                refine Or.inl ?_
                rw [← hal, ← ha2, hs]
                rfl
              | succ i2 =>
                exact Or.inr ⟨i2, rowi, a, by omega, by simpa using hri, hra, hal⟩
          obtain ⟨hq, hres⟩ := ih (idx + 1) _ seen m rowj b (by simpa using hj) hbx hdisj2
          have harith : ((users.map (retagDuplicate f)) ++ [(⟨row, some uname, .duplicate,
              some "Duplicate username found", idx, none⟩ : ProcessedUser)]).length + m =
              users.length + (m + 1) := by
            simp
            omega
          exact harith ▸ ⟨hq, hres⟩
        | none =>
          rw [processRows_cons_new extract row rest idx users seen uname hx hs]
          have hdisj2 : (mapGet (mapSet seen (jsToLower uname) idx) (jsToLower b)).isSome = true ∨
              ∃ (i : Nat) (rowi a : String), i < m ∧ rest[i]? = some rowi ∧
                extract rowi = some a ∧ jsToLower a = jsToLower b := by
            rcases hdisj with hleft | ⟨i, rowi, a, hilt, hri, hra, hal⟩
            · refine Or.inl ?_
              rw [mapGet_mapSet]
              by_cases hl : jsToLower uname = jsToLower b
              · rw [if_pos hl]
                rfl
              · rw [if_neg hl]
                exact hleft
            · cases i with
              | zero =>
                have hrr : rowi = row := (by simpa using hri : row = rowi).symm
                rw [hrr, hx] at hra
                have ha2 : uname = a := by simpa using hra
                refine Or.inl ?_
                rw [mapGet_mapSet, if_pos (by rw [ha2, hal])]
                rfl
              | succ i2 =>
                exact Or.inr ⟨i2, rowi, a, by omega, by simpa using hri, hra, hal⟩
          obtain ⟨hq, hres⟩ := ih (idx + 1) _ (mapSet seen (jsToLower uname) idx) m rowj b
            (by simpa using hj) hbx hdisj2
          have harith : (users ++ [(⟨row, some uname, .pending, none, idx,
              none⟩ : ProcessedUser)]).length + m = users.length + (m + 1) := by
            simp
            omega
          exact harith ▸ ⟨hq, hres⟩

/-- A row with a LATER case-insensitive partner among the remaining rows
also ends up `duplicate`: it is either flagged immediately (its name was
already seen) or registered as first occurrence and retro-flagged when the
partner arrives. -/
theorem processRows_earlier (extract : String → Option String) :
    ∀ (rest : List String) (idx : Nat) (users : List ProcessedUser)
      (seen : List (String × Nat)), PUInv users seen → idx = users.length →
      ∀ (i j : Nat) (rowi rowj a b : String), i < j →
      rest[i]? = some rowi → rest[j]? = some rowj →
      extract rowi = some a → extract rowj = some b → jsToLower a = jsToLower b →
      ∃ hq : users.length + i < (processRows extract rest idx users seen).length,
        ((processRows extract rest idx users seen).get
          ⟨users.length + i, hq⟩).status = .duplicate := by
  intro rest
  induction rest with
  | nil =>
    intro idx users seen _ _ i j rowi rowj a b _ hi
    simp at hi
  | cons row rest ih =>
    intro idx users seen inv hidx i j rowi rowj a b hij hi hj ha hb hab
    cases i with
    | zero =>
      have hrr : rowi = row := (by simpa using hi : row = rowi).symm
      rw [hrr] at ha
      cases hs : mapGet seen (jsToLower a) with
      | some f =>
        rw [processRows_cons_dup extract row rest idx users seen a f ha hs]
        have hlen2 : users.length < ((users.map (retagDuplicate f)) ++ [(⟨row, some a,
            .duplicate, some "Duplicate username found", idx, none⟩ : ProcessedUser)]).length := by
          simp
        obtain ⟨hq, hpres⟩ := processRows_preserves extract rest (idx + 1) _ seen
          users.length hlen2
        refine ⟨hq, ?_⟩
        have hval : ((users.map (retagDuplicate f)) ++ [(⟨row, some a, .duplicate,
            some "Duplicate username found", idx, none⟩ : ProcessedUser)]).get
            ⟨users.length, hlen2⟩ = ⟨row, some a, .duplicate,
            some "Duplicate username found", idx, none⟩ := by
          have h1 : ((users.map (retagDuplicate f)) ++ [(⟨row, some a, .duplicate,
              some "Duplicate username found", idx, none⟩ : ProcessedUser)])[users.length]? =
              some ⟨row, some a, .duplicate, some "Duplicate username found", idx, none⟩ := by
            have := List.getElem?_concat_length (users.map (retagDuplicate f))
              (⟨row, some a, .duplicate, some "Duplicate username found", idx,
                none⟩ : ProcessedUser)
            simpa using this
          have h2 := List.getElem?_eq_getElem hlen2
          rw [h1] at h2
          simpa using h2.symm
        rw [hval] at hpres
        exact hpres.2.2 rfl
      | none =>
        rw [processRows_cons_new extract row rest idx users seen a ha hs]
        subst hidx
        cases j with
        | zero => omega
        | succ m =>
          exact processRows_retro extract rest (users.length + 1) _
            (mapSet seen (jsToLower a) users.length) (inv.step_new row a hs) (by simp)
            users.length ⟨row, some a, .pending, none, users.length, none⟩ a
            (by
              have := List.getElem?_concat_length users
                (⟨row, some a, .pending, none, users.length, none⟩ : ProcessedUser)
              simpa using this)
            rfl (Or.inl rfl)
            ⟨m, rowj, b, by simpa using hj, hb, hab.symm⟩
    | succ i2 =>
      cases j with
      | zero => omega
      | succ m =>
        cases hx : extract row with
        | none =>
          rw [processRows_cons_none extract row rest idx users seen hx]
          subst hidx
          obtain ⟨hq, hres⟩ := ih (users.length + 1) _ seen (inv.step_invalid row) (by simp)
            i2 m rowi rowj a b (by omega) (by simpa using hi) (by simpa using hj) ha hb hab
          have harith : (users ++ [(⟨row, none, .invalid,
              some "Invalid username format or not found", users.length,
              none⟩ : ProcessedUser)]).length + i2 = users.length + (i2 + 1) := by
            simp
            omega
          exact harith ▸ ⟨hq, hres⟩
        | some uname =>
          cases hs : mapGet seen (jsToLower uname) with
          | some f =>
            rw [processRows_cons_dup extract row rest idx users seen uname f hx hs]
            subst hidx
            obtain ⟨hq, hres⟩ := ih (users.length + 1) _ seen (inv.step_dup row uname f hs)
              (by simp) i2 m rowi rowj a b (by omega) (by simpa using hi)
              (by simpa using hj) ha hb hab
            have harith : ((users.map (retagDuplicate f)) ++ [(⟨row, some uname, .duplicate,
                some "Duplicate username found", users.length,
                none⟩ : ProcessedUser)]).length + i2 = users.length + (i2 + 1) := by
              simp
              omega
            exact harith ▸ ⟨hq, hres⟩
          | none =>
            rw [processRows_cons_new extract row rest idx users seen uname hx hs]
            subst hidx
            obtain ⟨hq, hres⟩ := ih (users.length + 1) _
              (mapSet seen (jsToLower uname) users.length) (inv.step_new row uname hs)
              (by simp) i2 m rowi rowj a b (by omega) (by simpa using hi)
              (by simpa using hj) ha hb hab
            have harith : (users ++ [(⟨row, some uname, .pending, none, users.length,
                none⟩ : ProcessedUser)]).length + i2 = users.length + (i2 + 1) := by
              simp
              omega
            exact harith ▸ ⟨hq, hres⟩

/-- A duplicate record never passes the pending submission filter. -/
theorem dup_not_validated (users : List ProcessedUser) (u : ProcessedUser)
    (h : u.status = .duplicate) : u ∉ usersToValidate users := by
  intro hmem
  have hpred := List.of_mem_filter hmem
  rw [Bool.and_eq_true] at hpred
  have : u.status = .pending := by simpa using hpred.1
  rw [h] at this
  cases this

/-- C6: duplicate detection compares handles case-insensitively, and when a
later duplicate is found, the earlier occurrence is itself retro-flagged
`duplicate`, so neither occurrence passes the pending filter that selects
the handles submitted to the remote API. -/
theorem C6_duplicate_retroflag (extract : String → Option String) (rows : List String)
    (i j : Nat) (rowi rowj a b : String)
    (hij : i < j) (hi : rows[i]? = some rowi) (hj : rows[j]? = some rowj)
    (ha : extract rowi = some a) (hb : extract rowj = some b)
    (hcase : jsToLower a = jsToLower b) :
    ∃ (ui uj : ProcessedUser),
      (processUsernames extract rows)[i]? = some ui ∧
      (processUsernames extract rows)[j]? = some uj ∧
      ui.status = .duplicate ∧ uj.status = .duplicate ∧
      ui ∉ usersToValidate (processUsernames extract rows) ∧
      uj ∉ usersToValidate (processUsernames extract rows) := by
  unfold processUsernames
  have h0i : ([] : List ProcessedUser).length + i = i := by simp
  have h0j : ([] : List ProcessedUser).length + j = j := by simp
  obtain ⟨hqi, hdupi⟩ := h0i ▸ processRows_earlier extract rows 0 [] [] PUInv.nil rfl
    i j rowi rowj a b hij hi hj ha hb hcase
  obtain ⟨hqj, hdupj⟩ := h0j ▸ processRows_later extract rows 0 [] [] j rowj b hj hb
    (Or.inr ⟨i, rowi, a, hij, hi, ha, hcase⟩)
  refine ⟨(processRows extract rows 0 [] []).get ⟨i, hqi⟩,
    (processRows extract rows 0 [] []).get ⟨j, hqj⟩,
    by simp [List.getElem?_eq_getElem hqi], by simp [List.getElem?_eq_getElem hqj],
    hdupi, hdupj, dup_not_validated _ _ hdupi, dup_not_validated _ _ hdupj⟩

/-- C6 witness: two rows that extract to the same handle up to case; both
occurrences end duplicate and neither is submitted. -/
theorem C6_witness :
    ∃ (ui uj : ProcessedUser),
      (processUsernames (fun s => some s) ["Alice", "ALICE"])[0]? = some ui ∧
      (processUsernames (fun s => some s) ["Alice", "ALICE"])[1]? = some uj ∧
      ui.status = .duplicate ∧ uj.status = .duplicate ∧
      ui ∉ usersToValidate (processUsernames (fun s => some s) ["Alice", "ALICE"]) ∧
      uj ∉ usersToValidate (processUsernames (fun s => some s) ["Alice", "ALICE"]) := by
  exact C6_duplicate_retroflag (fun s => some s) ["Alice", "ALICE"] 0 1 "Alice" "ALICE"
    "Alice" "ALICE" (by decide) rfl rfl rfl rfl (by decide)

/-- C7 (amended): on the scenario input, record 2 is `duplicate`
(case-insensitive match of record 1) and record 3 is `invalid`, as the
claim says — but record 1 does not stay pending: the retro-flag turns it
`duplicate` as well, so no handle is submitted (zero network calls and no
record ever becomes valid). -/
theorem C7_scenario :
    (processUsernames extractUsernameDirect
        ["octocat", "OCTOCAT", "this_is_way_too_long_to_be_a_valid_handle_over_39_chars"]).map
        (·.status) = [.duplicate, .duplicate, .invalid] ∧
    (processUsernames extractUsernameDirect
        ["octocat", "OCTOCAT", "this_is_way_too_long_to_be_a_valid_handle_over_39_chars"]).map
        (·.username) = [some "octocat", some "OCTOCAT", none] ∧
    submittedUsernames (processUsernames extractUsernameDirect
        ["octocat", "OCTOCAT", "this_is_way_too_long_to_be_a_valid_handle_over_39_chars"]) = [] ∧
    clientMerge (processUsernames extractUsernameDirect
        ["octocat", "OCTOCAT", "this_is_way_too_long_to_be_a_valid_handle_over_39_chars"]) [] [] =
      processUsernames extractUsernameDirect
        ["octocat", "OCTOCAT", "this_is_way_too_long_to_be_a_valid_handle_over_39_chars"] := by
  decide

/-- C7 counterexample: the claim says record 1 stays pending and eventually
becomes valid; in fact after processing the input it is `duplicate`
(retro-flagged by record 2) and the submission list is empty, so no
validation pass runs and no record can become valid. -/
theorem C7_counterexample :
    ((processUsernames extractUsernameDirect
        ["octocat", "OCTOCAT", "this_is_way_too_long_to_be_a_valid_handle_over_39_chars"])[0]?).map
        (·.status) = some .duplicate ∧
    usersToValidate (processUsernames extractUsernameDirect
        ["octocat", "OCTOCAT", "this_is_way_too_long_to_be_a_valid_handle_over_39_chars"]) = [] := by
  decide

end GHV
